import Mathlib

/-!
Formal model of the notes-to-tasks extraction-and-scoring pipeline.

Python text is modelled as `List Char` (named `Str`); Python `dict`s with
insertion order as association lists with Python's assignment semantics
(`dictInsert`); Python `float` values as exact rationals (every float in this
pipeline is produced from short decimal literals, where binary doubles and
exact decimals round identically at the 1- and 2-digit precisions used);
fallible operations return `Option`.

Modules mirrored:
  * `scripts/score_tasks.py`   — namespace `ScoreTasks`
  * `scripts/extract_tasks.py` — namespace `ExtractTasks`
  * `implementations/A-mcp-server/server.py` — namespace `McpServer`
  * `implementations/C-backlog-md/importer.py` — namespace `Importer`
-/

set_option maxRecDepth 20000

abbrev Str := List Char

/-- Python `\s` / `str.strip()` whitespace, ASCII scope. -/
def isSpacePy (c : Char) : Bool :=
  c = ' ' || c = '\t' || c = '\n' || c = '\r' || c = '\x0b' || c = '\x0c'

def isDigitC (c : Char) : Bool := '0' ≤ c && c ≤ '9'

def isAlphaC (c : Char) : Bool := ('a' ≤ c && c ≤ 'z') || ('A' ≤ c && c ≤ 'Z')

/-- Python regex `\w` (ASCII scope). -/
def isWordC (c : Char) : Bool := isAlphaC c || isDigitC c || c = '_'

/-- Character class `[\w_-]` used by the frontmatter key regex. -/
def isKeyC (c : Char) : Bool := isWordC c || c = '-'

/-- Test whether `p` is an initial segment of `s`. -/
def hasInit : Str → Str → Bool
  | [], _ => true
  | _ :: _, [] => false
  | p :: ps, c :: cs => p = c && hasInit ps cs

/-- Test whether `t` is a final segment of `s`. -/
def hasTail (t s : Str) : Bool := hasInit t.reverse s.reverse

/-- Python `needle in haystack` (substring containment). -/
def hasSub (n : Str) : Str → Bool
  | [] => hasInit n []
  | c :: t => hasInit n (c :: t) || hasSub n t

/-- Python `haystack.find(needle)`: index of the leftmost occurrence. -/
def findFrom (n : Str) : Str → Option ℕ
  | [] => if n.isEmpty then some 0 else none
  | c :: t => if hasInit n (c :: t) then some 0 else (findFrom n t).map (· + 1)

def trimEndBy (p : Char → Bool) (s : Str) : Str := (s.reverse.dropWhile p).reverse

def pyStripBy (p : Char → Bool) (s : Str) : Str := trimEndBy p (s.dropWhile p)

/-- Python `str.strip()`. -/
def pyStrip (s : Str) : Str := pyStripBy isSpacePy s

/-- Python `str.strip(chars)`. -/
def stripSet (cs : List Char) (s : Str) : Str := pyStripBy (fun c => cs.contains c) s

/-- Python `str.lower()` (ASCII scope). -/
def lowerS (s : Str) : Str := s.map Char.toLower

/-- Python `str.splitlines()` for `\n`-separated text. -/
def splitlines : Str → List Str
  | [] => []
  | c :: s =>
    if c = '\n' then [] :: splitlines s
    else
      match splitlines s with
      | [] => [[c]]
      | l :: ls => (c :: l) :: ls

def digitChar (n : ℕ) : Char := Char.ofNat (48 + n)

def digitVal (c : Char) : ℕ := c.toNat - 48

def natToDecAux : ℕ → ℕ → Str
  | 0, _ => []
  | fuel + 1, n =>
    if n < 10 then [digitChar n]
    else natToDecAux fuel (n / 10) ++ [digitChar (n % 10)]

/-- Decimal rendering of a natural number (Python `str(n)` for `n ≥ 0`). -/
def natToDec (n : ℕ) : Str := natToDecAux (n + 1) n

/-- Python `str(i)` for an `int`. -/
def intToDec (i : ℤ) : Str := (if i < 0 then ['-'] else []) ++ natToDec i.natAbs

/-- Numeric value of a digit string (Python `int(s)` on regex-checked input). -/
def decToNat (s : Str) : ℕ := s.foldl (fun acc c => acc * 10 + digitVal c) 0

/-- Python `int(raw)` on input already matched against `^-?\d+$`. -/
def pyParseInt (s : Str) : ℤ :=
  match s with
  | [] => 0
  | c :: t => if c = '-' then -(decToNat t : ℤ) else (decToNat (c :: t) : ℤ)

/-- Regex test `^-?\d+$`. -/
def isIntTok (s : Str) : Bool :=
  match s with
  | [] => false
  | c :: t =>
    if c = '-' then !t.isEmpty && t.all isDigitC
    else !(c :: t).isEmpty && (c :: t).all isDigitC

def isFloatCore (t : Str) : Bool :=
  let a := t.takeWhile isDigitC
  match t.drop a.length with
  | c :: b => c = '.' && !a.isEmpty && !b.isEmpty && b.all isDigitC
  | [] => false

/-- Regex test `^-?\d+\.\d+$`. -/
def isFloatTok (s : Str) : Bool :=
  match s with
  | [] => false
  | c :: t => if c = '-' then isFloatCore t else isFloatCore (c :: t)

def pyParseFloatCore (t : Str) : ℚ :=
  let a := t.takeWhile isDigitC
  match t.drop a.length with
  | c :: b =>
    if c = '.' then (decToNat a : ℚ) + (decToNat b : ℚ) / (10 : ℚ) ^ b.length
    else (decToNat a : ℚ)
  | [] => (decToNat a : ℚ)

/-- Python `float(raw)` on input matched against `^-?\d+\.\d+$`, as an exact
rational (this pipeline's floats are short decimals, where the binary double
compares and prints identically). -/
def pyParseFloat (s : Str) : ℚ :=
  match s with
  | [] => pyParseFloatCore []
  | c :: t => if c = '-' then -(pyParseFloatCore t) else pyParseFloatCore (c :: t)

/-- Round to the nearest integer, ties to even (CPython `round` semantics). -/
def roundHalfEven (q : ℚ) : ℤ :=
  let f := q.floor
  if q - f < 1 / 2 then f
  else if 1 / 2 < q - f then f + 1
  else if f % 2 = 0 then f else f + 1

/-- Python `round(q, ndigits)` on an exact-decimal value. -/
def pyRound (q : ℚ) (ndigits : ℕ) : ℚ :=
  (roundHalfEven (q * 10 ^ ndigits) : ℚ) / 10 ^ ndigits

/-- Python format `f"{q:.1f}"` on an exact-decimal value. -/
def pyFormat1f (q : ℚ) : Str :=
  let m := roundHalfEven (q * 10)
  (if m < 0 then ['-'] else []) ++ natToDec (m.natAbs / 10) ++ '.' :: [digitChar (m.natAbs % 10)]

def fracDigits : ℕ → ℚ → Str
  | 0, _ => []
  | fuel + 1, r =>
    if r = 0 then []
    else
      let d := (r * 10).floor
      digitChar d.toNat :: fracDigits fuel (r * 10 - d)

/-- Python `str(x)` for a float that is an exact short decimal (shortest
round-tripping repr agrees with the exact expansion there). -/
def pyStrFloat (q : ℚ) : Str :=
  let a := if q < 0 then -q else q
  let ds := fracDigits 17 (a - a.floor)
  (if q < 0 then ['-'] else []) ++ natToDec a.floor.toNat ++ '.' :: (if ds.isEmpty then ['0'] else ds)

section JsonList

/-- JSON whitespace accepted by `json.loads`. -/
def isJsonWs (c : Char) : Bool := c = ' ' || c = '\t' || c = '\n' || c = '\r'

/-- Python `json.dumps` of a list of strings whose characters are printable
ASCII needing no escapes (the only lists this pipeline serializes). -/
def jsonDumpsList (xs : List Str) : Str :=
  '[' :: (List.intercalate ", ".data (xs.map (fun x => '"' :: (x ++ ['"'])))) ++ [']']

def jlString (s : Str) : Option (Str × Str) :=
  match s with
  | '"' :: r =>
    let x := r.takeWhile (fun c => !(c = '"' || c = '\\' || decide (c.toNat < 32)))
    match r.drop x.length with
    | c :: rest => if c = '"' then some (x, rest) else none
    | [] => none
  | _ => none

def jlItems : ℕ → Str → Option (List Str)
  | 0, _ => none
  | fuel + 1, s =>
    match s.dropWhile isJsonWs with
    | [] => none
    | c :: r =>
      if c = ']' then (if (r.dropWhile isJsonWs).isEmpty then some [] else none)
      else
        match jlString (c :: r) with
        | none => none
        | some (x, r1) =>
          match r1.dropWhile isJsonWs with
          | [] => none
          | c2 :: r2 =>
            if c2 = ',' then (jlItems fuel r2).map (x :: ·)
            else if c2 = ']' then (if (r2.dropWhile isJsonWs).isEmpty then some [x] else none)
            else none

/-- Python `json.loads` restricted to the representable fragment: arrays of
escape-free strings, the only list values `FMValue` carries and the only
shape `json.dumps` is applied to in this codec. `none` means the input is
not such an array; whether `json.loads` itself would accept it is decided
separately by `jsonDocValid`. -/
def jsonLoadsList (s : Str) : Option (List Str) :=
  match s.dropWhile isJsonWs with
  | [] => none
  | c :: r => if c = '[' then jlItems (r.length + 1) r else none

/-- Hex digit, for JSON `\uXXXX` escapes. -/
def isHexC (c : Char) : Bool :=
  isDigitC c || ('a' ≤ c && c ≤ 'f') || ('A' ≤ c && c ≤ 'F')

/-- Skip an optional `+`/`-` sign (exponent part of a JSON number). -/
def jnumSign (s : Str) : Str :=
  match s with
  | [] => []
  | c :: r => if c = '+' || c = '-' then r else c :: r

/-- Validate an optional exponent `([eE][+-]?\d+)?`, returning the rest. -/
def jnumExp (s : Str) : Option Str :=
  match s with
  | [] => some []
  | c :: r =>
    if c = 'e' || c = 'E' then
      match jnumSign r with
      | [] => none
      | d :: r2 => if isDigitC d then some ((d :: r2).dropWhile isDigitC) else none
    else some (c :: r)

/-- Validate an optional fraction `(\.\d+)?` then the exponent. -/
def jnumFrac (s : Str) : Option Str :=
  match s with
  | [] => some []
  | c :: r =>
    if c = '.' then
      match r with
      | [] => none
      | d :: _ => if isDigitC d then jnumExp (r.dropWhile isDigitC) else none
    else jnumExp (c :: r)

/-- Validate a JSON number after its optional sign: `0|[1-9]\d*` then
fraction and exponent (CPython `json` `NUMBER_RE`), returning the rest. -/
def jnumTok (s : Str) : Option Str :=
  match s with
  | [] => none
  | c :: r =>
    if c = '0' then jnumFrac r
    else if isDigitC c then jnumFrac (r.dropWhile isDigitC)
    else none

/-- Fuel-indexed state machine for the grammar `json.loads` accepts (strict
mode; `allow_nan` defaults on, hence the `NaN`/`Infinity`/`-Infinity`
constants). `mode`: 0 = one value (no leading whitespace); 1 = array body
after `[`; 3 = array after a value; 4 = string body after `"`; 5 = object
body after `{`; 6 = object after a key; 7 = object after a member value.
Returns the unconsumed rest on success. -/
def jskip : ℕ → ℕ → Str → Option Str
  | 0, _, _ => none
  | fuel + 1, mode, s =>
    if mode = 0 then
      match s with
      | [] => none
      | c :: r =>
        if c = '"' then jskip fuel 4 r
        else if c = '[' then jskip fuel 1 r
        else if c = '{' then jskip fuel 5 r
        else if c = 't' then (if hasInit "rue".data r then some (r.drop 3) else none)
        else if c = 'f' then (if hasInit "alse".data r then some (r.drop 4) else none)
        else if c = 'n' then (if hasInit "ull".data r then some (r.drop 3) else none)
        else if c = 'N' then (if hasInit "aN".data r then some (r.drop 2) else none)
        else if c = 'I' then (if hasInit "nfinity".data r then some (r.drop 7) else none)
        else if c = '-' then
          (if hasInit "Infinity".data r then some (r.drop 8) else jnumTok r)
        else if isDigitC c then jnumTok (c :: r)
        else none
    else if mode = 1 then
      match s.dropWhile isJsonWs with
      | [] => none
      | c :: r =>
        if c = ']' then some r
        else
          match jskip fuel 0 (c :: r) with
          | none => none
          | some rest => jskip fuel 3 rest
    else if mode = 3 then
      match s.dropWhile isJsonWs with
      | [] => none
      | c :: r =>
        if c = ']' then some r
        else if c = ',' then
          match jskip fuel 0 (r.dropWhile isJsonWs) with
          | none => none
          | some rest => jskip fuel 3 rest
        else none
    else if mode = 4 then
      match s with
      | [] => none
      | c :: r =>
        if c = '"' then some r
        else if c = '\\' then
          match r with
          | [] => none
          | e :: r2 =>
            if e = 'u' then
              match r2 with
              | h1 :: h2 :: h3 :: h4 :: r3 =>
                if isHexC h1 && isHexC h2 && isHexC h3 && isHexC h4 then jskip fuel 4 r3
                else none
              | _ => none
            else if e = '"' || e = '\\' || e = '/' || e = 'b' || e = 'f' || e = 'n'
                || e = 'r' || e = 't' then jskip fuel 4 r2
            else none
        else if decide (c.toNat < 32) then none
        else jskip fuel 4 r
    else if mode = 5 then
      match s.dropWhile isJsonWs with
      | [] => none
      | c :: r =>
        if c = '}' then some r
        else if c = '"' then
          match jskip fuel 4 r with
          | none => none
          | some rest => jskip fuel 6 rest
        else none
    else if mode = 6 then
      match s.dropWhile isJsonWs with
      | [] => none
      | c :: r =>
        if c = ':' then
          match jskip fuel 0 (r.dropWhile isJsonWs) with
          | none => none
          | some rest => jskip fuel 7 rest
        else none
    else if mode = 7 then
      match s.dropWhile isJsonWs with
      | [] => none
      | c :: r =>
        if c = '}' then some r
        else if c = ',' then
          match r.dropWhile isJsonWs with
          | [] => none
          | c2 :: r2 =>
            if c2 = '"' then
              match jskip fuel 4 r2 with
              | none => none
              | some rest => jskip fuel 6 rest
            else none
        else none
    else none

/-- `json.loads(s)` succeeds: optional whitespace, one JSON value, optional
whitespace, full consumption. The fuel bound is generous: every `jskip` step
either consumes a character or hands the rest to the next state, and no two
consecutive steps leave the input untouched. -/
def jsonDocValid (s : Str) : Bool :=
  match jskip (4 * s.length + 8) 0 (s.dropWhile isJsonWs) with
  | some rest => (rest.dropWhile isJsonWs).isEmpty
  | none => false

end JsonList

/-- Dynamically-typed frontmatter values: the shapes `_minimal_yaml_parse`
produces and `render_frontmatter` consumes. -/
inductive FMValue where
  | null : FMValue
  | int : ℤ → FMValue
  | float : ℚ → FMValue
  | str : Str → FMValue
  | list : List Str → FMValue
deriving DecidableEq

/-- Frontmatter mapping with Python-`dict` insertion order. -/
abbrev FM := List (Str × FMValue)

/-- Python `d[k] = v`: overwrite the (unique) existing entry in place, else
append; dict keys are unique, so replacing the first occurrence is exact. -/
def dictInsert : FM → Str → FMValue → FM
  | [], k, v => [(k, v)]
  | p :: t, k, v => if p.1 = k then (k, v) :: t else p :: dictInsert t k v

/-- Python `d.get(k)` (`none` when the key is absent). -/
def dictGet : FM → Str → Option FMValue
  | [], _ => none
  | p :: t, k => if p.1 = k then some p.2 else dictGet t k

/-- Python `d.update(u)` for a key-value sequence. -/
def dictUpdateMany (fm : FM) (upd : FM) : FM :=
  upd.foldl (fun m p => dictInsert m p.1 p.2) fm

namespace ScoreTasks

/-- The non-JSON branches of `_minimal_yaml_parse`'s value typing
(`scripts/score_tasks.py` lines 96-104): `null`/`~`/empty, the float and int
regexes, and the quote-stripped string fallback. -/
def parseValPlain (raw : Str) : FMValue :=
  let low := lowerS raw
  if low = "null".data || low = "~".data || low = [] then .null
  else if isFloatTok raw then .float (pyParseFloat raw)
  else if isIntTok raw then .int (pyParseInt raw)
  else .str (stripSet ['"', '\''] raw)

/-- Value typing of one frontmatter line's right-hand side
(`_minimal_yaml_parse`, score_tasks.py lines 89-104): when the quote-stripped
token is bracketed and `json.loads` accepts it, the loaded list is the value
and the plain branches are skipped; on a `ValueError` the plain branches run.
A bracketed token that is valid JSON but not an array of plain escape-free
strings loads to a list that `FMValue` cannot carry, so the embedding answers
`none` (unmodelled) there rather than a wrong value. -/
def parseVal (raw : Str) : Option FMValue :=
  let inner := stripSet ['"', '\''] raw
  if hasInit ['['] inner && hasTail [']'] inner then
    match jsonLoadsList inner with
    | some xs => some (FMValue.list xs)
    | none => if jsonDocValid inner then none else some (parseValPlain raw)
  else some (parseValPlain raw)

/-- One line of `_minimal_yaml_parse`: the regex `^(\w[\w_-]*):\s*(.*)$`
(group 2 is then `strip()`ed, which subsumes the `\s*`); `none` when the line
does not match, `some (k, none)` when the value is outside the model. -/
def parseLine (line : Str) : Option (Str × Option FMValue) :=
  match line.takeWhile isKeyC with
  | [] => none
  | k0 :: ks =>
    if isWordC k0 then
      match line.drop (k0 :: ks).length with
      | [] => none
      | c :: rest =>
        if c = ':' then some (k0 :: ks, parseVal (pyStrip rest)) else none
    else none

/-- Minimal YAML parser `_minimal_yaml_parse` (pyyaml-free path); `none` when
some line carries a JSON value outside the modelled fragment. -/
def _minimal_yaml_parse (t : Str) : Option FM :=
  (splitlines t).foldl
    (fun acc line =>
      acc.bind (fun fm =>
        match parseLine line with
        | some (k, some v) => some (dictInsert fm k v)
        | some (_, none) => none
        | none => some fm))
    (some [])

/-- One rendered value of `render_frontmatter` (score_tasks.py lines 110-133),
including the corrupted-round-trip guard: a string that strips to a
`json.loads`-parseable array is re-emitted as a JSON list. As in `parseVal`,
a guard hit outside the plain-string-array fragment is `none` (unmodelled)
rather than mis-rendered. -/
def renderVal : FMValue → Option Str
  | .null => some "null".data
  | .list xs => some (jsonDumpsList xs)
  | .str s =>
    let stripped := pyStrip s
    if hasInit ['['] stripped && hasTail [']'] stripped then
      match jsonLoadsList stripped with
      | some xs => some (jsonDumpsList xs)
      | none => if jsonDocValid stripped then none else some ('"' :: (s ++ ['"']))
    else some ('"' :: (s ++ ['"']))
  | .float q => some (pyFormat1f q)
  | .int n => some (intToDec n)

/-- One output line `f"{key}: {rendered}"` of `render_frontmatter`. -/
def renderLine (k r : Str) : Str := k ++ ':' :: ' ' :: r

/-- The rendered lines of `render_frontmatter`, in insertion order. -/
def renderLines : FM → Option (List Str)
  | [] => some []
  | p :: t =>
    match renderVal p.2 with
    | none => none
    | some r =>
      match renderLines t with
      | none => none
      | some ls => some (renderLine p.1 r :: ls)

/-- Frontmatter rendering `render_frontmatter` (`"\n".join(lines)`). -/
def render_frontmatter (fm : FM) : Option Str :=
  (renderLines fm).map (List.intercalate ['\n'])

/-- Frontmatter extraction `parse_frontmatter` (dependency-free parser path):
requires a leading `---`, locates the closing `\n---`, strips and parses the
block between, and strips the remainder as body. -/
def parse_frontmatter (text : Str) : Option (FM × Str) :=
  if !hasInit "---".data text then some ([], text)
  else
    match findFrom "\n---".data (text.drop 3) with
    | none => some ([], text)
    | some i =>
      let fmText := pyStrip ((text.drop 3).take i)
      let body := pyStrip (text.drop (i + 3 + 4))
      match _minimal_yaml_parse fmText with
      | none => none
      | some fm => some (fm, body)

end ScoreTasks

section Dates

/-- Proleptic Gregorian leap-year test (`calendar`/`datetime` rule). -/
def isLeapYear (y : ℕ) : Bool := y % 4 = 0 && (y % 100 ≠ 0 || y % 400 = 0)

def daysInMonth (y m : ℕ) : ℕ :=
  if m = 2 then (if isLeapYear y then 29 else 28)
  else if m = 4 || m = 6 || m = 9 || m = 11 then 30
  else 31

def daysBeforeMonth (y m : ℕ) : ℕ :=
  [0, 31, 59, 90, 120, 151, 181, 212, 243, 273, 304, 334].getD (m - 1) 0
    + (if 3 ≤ m && isLeapYear y then 1 else 0)

/-- Calendar date, mirroring `datetime.date`. -/
structure PyDate where
  year : ℕ
  month : ℕ
  day : ℕ
deriving DecidableEq

/-- Validity enforced by the `datetime.date` constructor. -/
def PyDate.valid (d : PyDate) : Bool :=
  1 ≤ d.year && d.year ≤ 9999 && 1 ≤ d.month && d.month ≤ 12
    && 1 ≤ d.day && d.day ≤ daysInMonth d.year d.month

/-- Rata-die ordinal of a date (`datetime.date.toordinal`); differences of
ordinals are `(d1 - d2).days`. -/
def PyDate.toOrd (d : PyDate) : ℤ :=
  365 * ((d.year : ℤ) - 1) + ((d.year : ℤ) - 1) / 4 - ((d.year : ℤ) - 1) / 100
    + ((d.year : ℤ) - 1) / 400 + (daysBeforeMonth d.year d.month : ℤ) + (d.day : ℤ)

def pad2 (n : ℕ) : Str := [digitChar (n / 10 % 10), digitChar (n % 10)]

def pad4 (n : ℕ) : Str :=
  [digitChar (n / 1000 % 10), digitChar (n / 100 % 10), digitChar (n / 10 % 10), digitChar (n % 10)]

/-- Python `date.isoformat()` (`%04d-%02d-%02d`). -/
def PyDate.isoformat (d : PyDate) : Str :=
  pad4 d.year ++ '-' :: pad2 d.month ++ '-' :: pad2 d.day

/-- CPython `strptime` month token `1[0-2]|0[1-9]|[1-9]` (alternation order as
in `_strptime.TimeRE`). -/
def monthTok : Str → Option (ℕ × Str)
  | '1' :: c :: r => if '0' ≤ c && c ≤ '2' then some (10 + digitVal c, r) else some (1, c :: r)
  | '0' :: c :: r => if '1' ≤ c && c ≤ '9' then some (digitVal c, r) else none
  | c :: r => if '1' ≤ c && c ≤ '9' then some (digitVal c, r) else none
  | [] => none

/-- CPython `strptime` day token `3[01]|[12]\d|0[1-9]|[1-9]`. -/
def dayTok : Str → Option (ℕ × Str)
  | '3' :: c :: r => if c = '0' || c = '1' then some (30 + digitVal c, r) else some (3, c :: r)
  | '1' :: c :: r => if isDigitC c then some (10 + digitVal c, r) else some (1, c :: r)
  | '2' :: c :: r => if isDigitC c then some (20 + digitVal c, r) else some (2, c :: r)
  | '0' :: c :: r => if '1' ≤ c && c ≤ '9' then some (digitVal c, r) else none
  | c :: r => if '1' ≤ c && c ≤ '9' then some (digitVal c, r) else none
  | [] => none

/-- Python `datetime.strptime(s, "%Y-%m-%d").date()`: four year digits,
flexible month/day tokens, full-string consumption, and construction-time
validation; `none` models the `ValueError` path. -/
def strptimeYmd (s : Str) : Option PyDate :=
  match s with
  | a :: b :: c :: d :: '-' :: rest =>
    if isDigitC a && isDigitC b && isDigitC c && isDigitC d then
      match monthTok rest with
      | some (m, '-' :: rest2) =>
        match dayTok rest2 with
        | some (dy, []) =>
          let dt : PyDate := ⟨decToNat [a, b, c, d], m, dy⟩
          if dt.valid then some dt else none
        | _ => none
      | _ => none
    else none
  | _ => none

end Dates

/-- Python `str(x)` of a list (repr with single-quoted elements; exact only
for quote- and escape-free elements, the shapes this pipeline handles). -/
def pyStrList (xs : List Str) : Str :=
  '[' :: (List.intercalate ", ".data (xs.map (fun x => '\'' :: (x ++ ['\''])))) ++ [']']

/-- Python `str(v)` over the frontmatter value shapes. -/
def pyStr : FMValue → Str
  | .null => "None".data
  | .str s => s
  | .int n => intToDec n
  | .float q => pyStrFloat q
  | .list xs => pyStrList xs

/-- Python `str(d.get(k, ""))` as used for searchable text. -/
def pyStrOfGet (o : Option FMValue) : Str :=
  match o with
  | none => []
  | some v => pyStr v

namespace ScoreTasks

/-- Keyword-boost table `URGENCY_KEYWORDS` of `score_tasks.py`, in dict
insertion order. -/
def URGENCY_KEYWORDS : List (Str × ℤ) :=
  [("blocking".data, 3), ("blocked".data, 3), ("critical".data, 3), ("p0".data, 3),
   ("asap".data, 2), ("urgent".data, 2), ("immediately".data, 2), ("today".data, 2),
   ("eod".data, 2), ("p1".data, 2),
   ("high priority".data, 1), ("soon".data, 1)]

/-- Rule-based urgency `compute_urgency`: a stored positive-integer urgency is
the baseline, otherwise a keyword scan of title+body from base 5; deadline
proximity is then always applied on top, and the result clamped to 10.
Only a string-valued `due_date` can yield a proximity boost: `None`/null and
the empty string are filtered by the truthiness test, and `str()` of an
int/float/list never parses as `%Y-%m-%d`. -/
def compute_urgency (fm : FM) (body : Str) (today : PyDate) : ℤ :=
  let keywordScore : ℤ :=
    let searchable := lowerS (pyStrOfGet (dictGet fm "title".data) ++ ' ' :: body)
    URGENCY_KEYWORDS.foldl (fun s kw => if hasSub kw.1 searchable then min 10 (s + kw.2) else s) 5
  let score : ℤ :=
    match dictGet fm "urgency".data with
    | some (.int n) => if 0 < n then n else keywordScore
    | _ => keywordScore
  let score2 : ℤ :=
    match dictGet fm "due_date".data with
    | some (.str s) =>
      if s ≠ [] ∧ s ≠ "null".data then
        match strptimeYmd s with
        | some due =>
          let daysLeft := due.toOrd - today.toOrd
          if daysLeft ≤ 0 then min 10 (score + 4)
          else if daysLeft ≤ 2 then min 10 (score + 3)
          else if daysLeft ≤ 7 then min 10 (score + 2)
          else if daysLeft ≤ 14 then min 10 (score + 1)
          else score
        | none => score
      else score
    | _ => score
  min 10 score2

def HIGH_IMPACT_KEYWORDS : List Str :=
  ["launch".data, "release".data, "customer".data, "revenue".data, "security".data,
   "auth".data, "production".data, "deploy".data, "outage".data, "critical".data,
   "blocking".data]

def HARD_KEYWORDS : List Str :=
  ["refactor".data, "migrate".data, "redesign".data, "architecture".data,
   "integration".data, "rewrite".data, "research".data, "spike".data]

def EASY_KEYWORDS : List Str :=
  ["fix typo".data, "update readme".data, "update doc".data, "bump version".data,
   "hotfix".data]

/-- Heuristic fallback `heuristic_impact_effort`. -/
def heuristic_impact_effort (fm : FM) : ℤ × ℤ :=
  let title_lower := lowerS (pyStrOfGet (dictGet fm "title".data))
  let priority := lowerS (pyStr (match dictGet fm "priority".data with
    | some v => v
    | none => .str "medium".data))
  let impact0 : ℤ :=
    if priority = "critical".data then 9
    else if priority = "high".data then 7
    else if priority = "low".data then 3
    else 6
  let impact := HIGH_IMPACT_KEYWORDS.foldl
    (fun im kw => if hasSub kw title_lower then min 10 (im + 1) else im) impact0
  let effort1 := HARD_KEYWORDS.foldl
    (fun e kw => if hasSub kw title_lower then min 10 (e + 2) else e) (4 : ℤ)
  let effort := EASY_KEYWORDS.foldl
    (fun e kw => if hasSub kw title_lower then max 1 (e - 2) else e) effort1
  (impact, effort)

/-- Score formula `compute_score` with the weights of `SCORE_WEIGHTS`
(`urgency: 0.4, impact: 0.4, effort: -0.2`). The source annotates the
arguments as `int`, but Python passes through whatever numeric values the
frontmatter held, so the model takes rationals. -/
def compute_score (urgency impact effort : ℚ) : ℚ :=
  pyRound (urgency * 0.4 + impact * 0.4 + effort * (-0.2)) 1

/-- Python `x is None` view of a fetched frontmatter value: absent key or a
stored `null` both read back as `None`. -/
def getOpt (fm : FM) (k : Str) : Option FMValue :=
  match dictGet fm k with
  | some .null => none
  | o => o

/-- Numeric reading of a frontmatter value; `none` models the `TypeError`
Python would raise on arithmetic with a non-numeric value. -/
def toNum : FMValue → Option ℚ
  | .int n => some (n : ℚ)
  | .float q => some q
  | _ => none

/-- Impact/effort resolution step of `score_task_file` (lines 308-319): the
external-estimator tier runs when either value is absent and `--no-llm` is not
set, and on success assigns both fields; the heuristic tier then fills only
the fields still absent. `llm` is the outcome of the external collaborator
`llm_score_impact_effort` (`none` = unavailable/failed; a returned pair is
already clamped to `[1,10]` by that function). -/
def resolveImpactEffort (fm : FM) (llm : Option (ℤ × ℤ)) (noLlm : Bool) :
    Option FMValue × Option FMValue :=
  let impact0 := getOpt fm "impact".data
  let effort0 := getOpt fm "effort".data
  let p1 :=
    if (impact0 = none ∨ effort0 = none) ∧ noLlm = false then
      match llm with
      | some (li, le) => (some (FMValue.int li), some (FMValue.int le))
      | none => (impact0, effort0)
    else (impact0, effort0)
  let he := heuristic_impact_effort fm
  (match p1.1 with
   | none => some (FMValue.int he.1)
   | some v => some v,
   match p1.2 with
   | none => some (FMValue.int he.2)
   | some v => some v)

/-- Scoring step `score_task_file` on one record, non-dry-run path, with file
I/O abstracted away: returns the frontmatter that is written back, or `none`
for the skipped (`no frontmatter`) and exceptional (non-numeric
impact/effort) paths. -/
def score_task_file (fm : FM) (body : Str) (llm : Option (ℤ × ℤ)) (noLlm : Bool)
    (today : PyDate) : Option FM :=
  if fm = [] then none
  else
    let urgency := compute_urgency fm body today
    let (oi, oe) := resolveImpactEffort fm llm noLlm
    match oi, oe with
    | some iv, some ev =>
      match toNum iv, toNum ev with
      | some iq, some eq =>
        let score := compute_score (urgency : ℚ) iq eq
        some (dictInsert (dictInsert (dictInsert (dictInsert (dictInsert fm
          "urgency".data (.int urgency))
          "impact".data iv)
          "effort".data ev)
          "score".data (.float score))
          "updated_date".data (.str today.isoformat))
      | _, _ => none
    | _, _ => none

end ScoreTasks

namespace ExtractTasks

/-- Fixed triage threshold `CONFIDENCE_THRESHOLD` of `extract_tasks.py` — a
module-level constant, not a per-call parameter. -/
def CONFIDENCE_THRESHOLD : ℚ := 0.7

/-- Keyword-boost table `URGENCY_KEYWORDS` of `extract_tasks.py`, in dict
insertion order (differs from the scorer's table: has `end of day`, lacks
`today`). -/
def URGENCY_KEYWORDS : List (Str × ℤ) :=
  [("blocking".data, 3), ("blocked".data, 3), ("critical".data, 3), ("p0".data, 3),
   ("asap".data, 2), ("urgent".data, 2), ("immediately".data, 2), ("eod".data, 2),
   ("end of day".data, 2), ("p1".data, 2),
   ("high priority".data, 1), ("soon".data, 1)]

/-- Entry trigger `re.match(r"^##\s+Action Items", line, re.IGNORECASE)`: an
anchored prefix match, so any level-2 heading beginning with "Action Items"
(case-insensitively) matches. -/
def matchEntry (line : Str) : Bool :=
  match line with
  | '#' :: '#' :: r =>
    let sp := r.takeWhile isSpacePy
    !sp.isEmpty && hasInit "action items".data (lowerS (r.drop sp.length))
  | _ => false

/-- Exit trigger `re.match(r"^##\s+", line)`. -/
def matchExit (line : Str) : Bool :=
  match line with
  | '#' :: '#' :: r => !(r.takeWhile isSpacePy).isEmpty
  | _ => false

/-- Checkbox matcher `re.match(r"^\s*-\s+\[[ x]\]\s+(.+)$", line, re.IGNORECASE)`,
returning group 1. When nothing follows the post-bracket whitespace, the
greedy `\s+` gives one character back to `.+`, so the group is the last
whitespace character. -/
def matchCheckbox (line : Str) : Option Str :=
  match line.dropWhile isSpacePy with
  | '-' :: r1 =>
    let sp1 := r1.takeWhile isSpacePy
    if sp1.isEmpty then none
    else
      match r1.drop sp1.length with
      | '[' :: c :: ']' :: r2 =>
        if c = ' ' || c = 'x' || c = 'X' then
          let sp2 := r2.takeWhile isSpacePy
          let rest := r2.drop sp2.length
          if sp2.isEmpty then none
          else if !rest.isEmpty then some rest
          else
            match sp2.reverse with
            | cl :: _ :: _ => some [cl]
            | _ => none
        else none
      | _ => none
  | _ => none

/-- Raw action item with its `raw` group and stripped source line. -/
structure RawItem where
  raw : Str
  line : Str
deriving DecidableEq

/-- Line loop of `extract_action_items`: entry regex first (so an "Action
Items" heading keeps the section open), then the exit-and-`break` check, then
the checkbox match inside the window. -/
def extractGo : List Str → Bool → List RawItem
  | [], _ => []
  | line :: rest, inSection =>
    if matchEntry line then extractGo rest true
    else if inSection && matchExit line then []
    else if !inSection then extractGo rest inSection
    else
      match matchCheckbox line with
      | some g => { raw := pyStrip g, line := pyStrip line } :: extractGo rest inSection
      | none => extractGo rest inSection

/-- Action-item extractor `extract_action_items`. -/
def extract_action_items (text : Str) : List RawItem :=
  extractGo (splitlines text) false

/-- Owner pattern `\*\*(@\w+)\*\*` matched at the start of `s` (group 1). -/
def ownerMatchAt (s : Str) : Option Str :=
  match s with
  | '*' :: '*' :: '@' :: r =>
    let w := r.takeWhile isWordC
    if w.isEmpty then none
    else
      match r.drop w.length with
      | '*' :: '*' :: _ => some ('@' :: w)
      | _ => none
  | _ => none

/-- Leftmost `re.search` for the owner pattern. -/
def ownerSearch : Str → Option Str
  | [] => none
  | c :: t =>
    match ownerMatchAt (c :: t) with
    | some g => some g
    | none => ownerSearch t

/-- Due-date alternative `\d{4}-\d{2}-\d{2}` at the start of `s`. -/
def dateAltTok (s : Str) : Option Str :=
  match s with
  | a :: b :: c :: d :: '-' :: e :: f :: '-' :: g :: h :: _ =>
    if [a, b, c, d, e, f, g, h].all isDigitC then some [a, b, c, d, '-', e, f, '-', g, h]
    else none
  | _ => none

/-- Case-insensitive literal alternative; the group keeps the original slice. -/
def litTokCi (lit : Str) (s : Str) : Option Str :=
  if hasInit lit (lowerS s) then some (s.take lit.length) else none

/-- Backtracking for `[\w\s]+\d+`: the greedy word-or-space run shrinks from
the right until `\d+` can match (equivalently, until the prefix ends just
before a digit at index ≥ 1). -/
def wsAltGo (R : Str) : ℕ → Option Str
  | 0 => none
  | l + 1 =>
    let ds := (R.drop (l + 1)).takeWhile isDigitC
    if !ds.isEmpty then some (R.take (l + 1) ++ ds) else wsAltGo R l

/-- Due-date alternative `[\w\s]+\d+` at the start of `s`. -/
def wsAltTok (s : Str) : Option Str :=
  let R := s.takeWhile (fun c => isWordC c || isSpacePy c)
  wsAltGo R R.length

/-- Alternation `(\d{4}-\d{2}-\d{2}|next meeting|eod|today|[\w\s]+\d+)` tried
in pattern order at one position. -/
def dueAlts (s : Str) : Option Str :=
  match dateAltTok s with
  | some g => some g
  | none =>
    match litTokCi "next meeting".data s with
    | some g => some g
    | none =>
      match litTokCi "eod".data s with
      | some g => some g
      | none =>
        match litTokCi "today".data s with
        | some g => some g
        | none => wsAltTok s

/-- Backtracking over the greedy `\s+` after `due`: whitespace lengths are
tried from the maximal run down to 1. -/
def dueWsGo (after : Str) : ℕ → Option Str
  | 0 => none
  | l + 1 =>
    match dueAlts (after.drop (l + 1)) with
    | some g => some g
    | none => dueWsGo after l

/-- Due pattern `due\s+(...)` matched at the start of `s` (case-insensitive). -/
def dueMatchAt (s : Str) : Option Str :=
  if hasInit "due".data (lowerS s) then
    let after := s.drop 3
    dueWsGo after (after.takeWhile isSpacePy).length
  else none

/-- Leftmost `re.search` for the due pattern; the result is group 1. -/
def dueSearch : Str → Option Str
  | [] => none
  | c :: t =>
    match dueMatchAt (c :: t) with
    | some g => some g
    | none => dueSearch t

/-- Length of a match of `\*\*@\w+\*\*\s*[—-]\s*` at the start of `s` (the
assignee-marker strip of the title computation). -/
def sub1MatchLen (s : Str) : Option ℕ :=
  match s with
  | '*' :: '*' :: '@' :: r =>
    let w := r.takeWhile isWordC
    if w.isEmpty then none
    else
      match r.drop w.length with
      | '*' :: '*' :: r2 =>
        let sp1 := r2.takeWhile isSpacePy
        match r2.drop sp1.length with
        | dch :: r3 =>
          if dch = '—' || dch = '-' then
            some (3 + w.length + 2 + sp1.length + 1 + (r3.takeWhile isSpacePy).length)
          else none
        | [] => none
      | _ => none
  | _ => none

/-- Replace-all loop of `re.sub` for the assignee-marker pattern (fuel is the
remaining length, enough for the left-to-right scan). -/
def sub1All : ℕ → Str → Str
  | 0, s => s
  | _ + 1, [] => []
  | fuel + 1, c :: t =>
    match sub1MatchLen (c :: t) with
    | some n => sub1All fuel ((c :: t).drop n)
    | none => c :: sub1All fuel t

def titleSub1 (s : Str) : Str := sub1All (s.length + 1) s

/-- Match of `\s*[—-]\s*due\s+.+` at the start of `s`: after `due` the greedy
`\s+` must keep one whitespace character and leave at least one character for
`.+`. Such a match always extends to the end of the string. -/
def p2At (s : Str) : Bool :=
  match s.drop (s.takeWhile isSpacePy).length with
  | dch :: r =>
    (dch = '—' || dch = '-') &&
      (let r2 := r.drop (r.takeWhile isSpacePy).length
       hasInit "due".data (lowerS r2) &&
         match r2.drop 3 with
         | sc :: _ :: _ => isSpacePy sc
         | _ => false)
  | [] => false

/-- Replace of `re.sub` for the due-clause pattern: truncation at the leftmost
match position. -/
def titleSub2 : Str → Str
  | [] => []
  | c :: t => if p2At (c :: t) then [] else c :: titleSub2 t

/-- One alternative of the trailing-clause pattern with its `\s+.+` suffix. -/
def p3Kw (kw : Str) (r2 : Str) : Bool :=
  hasInit kw (lowerS r2) &&
    match r2.drop kw.length with
    | sc :: _ :: _ => isSpacePy sc
    | _ => false

/-- Match of `\s*[—-]\s*(blocking|depends on|blocked)\s+.+` at the start of
`s` (alternatives in pattern order). -/
def p3At (s : Str) : Bool :=
  match s.drop (s.takeWhile isSpacePy).length with
  | dch :: r =>
    (dch = '—' || dch = '-') &&
      (let r2 := r.drop (r.takeWhile isSpacePy).length
       p3Kw "blocking".data r2 || p3Kw "depends on".data r2 || p3Kw "blocked".data r2)
  | [] => false

def titleSub3 : Str → Str
  | [] => []
  | c :: t => if p3At (c :: t) then [] else c :: titleSub3 t

/-- Title computation of `parse_action_item`: the three `re.sub` passes, then
`strip(" —-")`. -/
def extractTitle (raw : Str) : Str :=
  stripSet [' ', '—', '-'] (titleSub3 (titleSub2 (titleSub1 raw)))

/-- Keyword→label table of `parse_action_item`, in source order. -/
def LABEL_KEYWORDS : List (Str × Str) :=
  [("auth".data, "auth".data), ("api".data, "api".data), ("db".data, "database".data),
   ("database".data, "database".data), ("test".data, "testing".data),
   ("deploy".data, "deploy".data), ("bug".data, "bug".data), ("fix".data, "bug".data),
   ("doc".data, "docs".data), ("design".data, "design".data),
   ("front".data, "frontend".data), ("back".data, "backend".data),
   ("infra".data, "infrastructure".data)]

/-- Label collection pass (before deduplication). -/
def detectLabels (lower : Str) : List Str :=
  (LABEL_KEYWORDS.filter (fun p => hasSub p.1 lower)).map (fun p => p.2)

/-- Python `Path(p).stem`. -/
def pyStem (p : Str) : Str :=
  let nm := (p.reverse.takeWhile (fun c => c ≠ '/')).reverse
  let afterDot := nm.reverse.takeWhile (fun c => c ≠ '.')
  if afterDot.length = nm.length then nm
  else if nm.length - afterDot.length - 1 = 0 then nm
  else nm.take (nm.length - afterDot.length - 1)

/-- Structured candidate fields returned by `parse_action_item`. -/
structure Cand where
  title : Str
  status : Str
  assignee : Str
  priority : Str
  urgency : ℤ
  impact : Option ℤ
  effort : Option ℤ
  score : Option ℚ
  due_date : Option Str
  labels : List Str
  dependencies : List Str
  source : Str
  confidence : ℚ
deriving DecidableEq

/-- Action-item parser `parse_action_item`. Python's `list(set(labels))` has
implementation-defined order; the model keeps first occurrences (`dedup`).
The due-date truthiness test `if due_date:` coincides with `isSome` because
every alternative of the due regex matches at least one character. -/
def parse_action_item (raw : Str) (source_file : Str) : Cand :=
  let owner := ownerSearch raw
  let due_date := dueSearch raw
  let title := extractTitle raw
  let lower := lowerS raw
  let labels := (detectLabels lower).dedup
  let c1 : ℚ := if owner.isSome then 0.5 + 0.2 else 0.5
  let c2 : ℚ := if due_date.isSome then c1 + 0.15 else c1
  let c3 : ℚ := if 10 < title.length then c2 + 0.15 else c2
  let urgency := URGENCY_KEYWORDS.foldl
    (fun u kw => if hasSub kw.1 lower then min 10 (u + kw.2) else u) 5
  { title := title
    status := "todo".data
    assignee := match owner with | some a => a | none => "unassigned".data
    priority :=
      if 8 ≤ urgency then "high".data
      else if 5 ≤ urgency then "medium".data
      else "low".data
    urgency := urgency
    impact := none
    effort := none
    score := none
    due_date := due_date
    labels := labels
    dependencies := []
    source := '[' :: '[' :: (pyStem source_file ++ [']', ']'])
    confidence := pyRound c3 2 }

/-- Triage loop of `extract_tasks.main`: candidates below the threshold go to
the flagged directory, the rest to the live task directory. Returns
(live-written, flagged) in document order; ID allocation and file writing are
external collaborators. -/
def routeGo (src : Str) : List RawItem → List Cand × List Cand
  | [] => ([], [])
  | it :: rest =>
    let fields := parse_action_item it.raw src
    let (w, f) := routeGo src rest
    if fields.confidence < CONFIDENCE_THRESHOLD then (w, fields :: f) else (fields :: w, f)

/-- Extraction pipeline of `extract_tasks.main` for one note. -/
def routeNote (text : Str) (src : Str) : List Cand × List Cand :=
  routeGo src (extract_action_items text)

end ExtractTasks

namespace Importer

/-- Import loop of `C-backlog-md/importer.py` `main`: low-confidence
candidates are skipped with a review message and only counted; the rest are
written. Returns (written, flagged-count). -/
def importGo (src : Str) : List ExtractTasks.RawItem → List ExtractTasks.Cand × ℕ
  | [] => ([], 0)
  | it :: rest =>
    let fields := ExtractTasks.parse_action_item it.raw src
    let (w, n) := importGo src rest
    if fields.confidence < 0.7 then (w, n + 1) else (fields :: w, n)

/-- Importer pipeline for one note. -/
def importNote (text : Str) (src : Str) : List ExtractTasks.Cand × ℕ :=
  importGo src (ExtractTasks.extract_action_items text)

end Importer

namespace McpServer

/-- Python `params.get(k, default)`. -/
def paramGet (params : FM) (k : Str) (dflt : FMValue) : FMValue :=
  match dictGet params k with
  | some v => v
  | none => dflt

/-- Task creation `tool_create_task`: the frontmatter written for a fresh
record (`task_id` allocation is an external collaborator). -/
def tool_create_task (taskId : Str) (params : FM) (today : PyDate) : FM :=
  [("id".data, .str taskId),
   ("title".data, paramGet params "title".data (.str "Untitled task".data)),
   ("status".data, .str "todo".data),
   ("assignee".data, paramGet params "assignee".data (.str "unassigned".data)),
   ("priority".data, paramGet params "priority".data (.str "medium".data)),
   ("score".data, .null),
   ("urgency".data, .null),
   ("impact".data, .null),
   ("effort".data, .null),
   ("created_date".data, .str today.isoformat),
   ("updated_date".data, .str today.isoformat),
   ("due_date".data, paramGet params "due_date".data .null),
   ("labels".data, paramGet params "labels".data (.list [])),
   ("dependencies".data, paramGet params "dependencies".data (.list [])),
   ("source".data, paramGet params "source".data (.str "manual".data)),
   ("confidence".data, paramGet params "confidence".data (.float 1))]

/-- Patch operation `tool_update_task` on an existing record's frontmatter:
merges every non-`id` parameter and stamps `updated_date`. -/
def tool_update_task (fm : FM) (params : FM) (today : PyDate) : FM :=
  let updateFields := params.filter (fun p => p.1 ≠ "id".data)
  dictInsert (dictUpdateMany fm updateFields) "updated_date".data (.str today.isoformat)

/-- Completion operation `tool_complete_task`: sets status, `updated_date`
and `completed_date`. -/
def tool_complete_task (fm : FM) (today : PyDate) : FM :=
  dictInsert (dictInsert (dictInsert fm
    "status".data (.str "done".data))
    "updated_date".data (.str today.isoformat))
    "completed_date".data (.str today.isoformat)

end McpServer

section DictLemmas

theorem dictGet_dictInsert_self (m : FM) (k : Str) (v : FMValue) :
    dictGet (dictInsert m k v) k = some v := by
  induction m with
  | nil => simp [dictInsert, dictGet]
  | cons p t ih =>
    by_cases hp : p.1 = k
    · simp [dictInsert, dictGet, hp]
    · simp [dictInsert, dictGet, hp, ih]

theorem dictGet_dictInsert_ne (m : FM) (k k' : Str) (v : FMValue) (hne : k' ≠ k) :
    dictGet (dictInsert m k v) k' = dictGet m k' := by
  induction m with
  | nil =>
    have : ¬(k = k') := fun h => hne h.symm
    simp [dictInsert, dictGet, this]
  | cons p t ih =>
    by_cases hp : p.1 = k
    · have : ¬(k = k') := fun h => hne h.symm
      simp [dictInsert, dictGet, hp, this]
    · by_cases hp' : p.1 = k'
      · simp [dictInsert, dictGet, hp, hp', hne]
      · simp [dictInsert, dictGet, hp, hp', ih]

end DictLemmas

section ScoreFormula

theorem ratFloor_eq_intFloor (q : ℚ) : q.floor = ⌊q⌋ := rfl

theorem roundHalfEven_intCast (n : ℤ) : roundHalfEven (n : ℚ) = n := by
  unfold roundHalfEven
  rw [ratFloor_eq_intFloor, Int.floor_intCast]
  norm_num

theorem compute_score_int (u i e : ℤ) :
    ScoreTasks.compute_score (u : ℚ) (i : ℚ) (e : ℚ) = ((2 * u + 2 * i - e : ℤ) : ℚ) / 5 := by
  unfold ScoreTasks.compute_score pyRound
  have h : ((u : ℚ) * 0.4 + (i : ℚ) * 0.4 + (e : ℚ) * (-0.2)) * 10 ^ 1
      = ((2 * (2 * u + 2 * i - e) : ℤ) : ℚ) := by
    push_cast
    ring
  rw [h, roundHalfEven_intCast]
  push_cast
  ring

/-- C2 counterexample: at urgency = impact = 1, effort = 10 — all inside
`[1,10]` — the score is `-1.2`, which is not in the claimed interval
`[0.2, 10.0]`. -/
theorem compute_score_outside_claimed_interval :
    ScoreTasks.compute_score 1 1 10 = -(6 / 5 : ℚ) ∧
      ¬((2 / 10 : ℚ) ≤ ScoreTasks.compute_score 1 1 10) := by
  with_unfolding_all decide

/-- C2 (amended): for integer inputs in `[1,10]`, `compute_score` equals the
unrounded, unclamped formula `u*0.4 + i*0.4 - e*0.2` (the one-decimal rounding
is the identity there), and its natural range is `[-1.2, 7.8]`, attained at
`(1,1,10)` and `(10,10,1)` — not the claimed `[0.2, 10.0]`. -/
theorem compute_score_formula_and_range (u i e : ℤ)
    (hu1 : 1 ≤ u) (hu2 : u ≤ 10) (hi1 : 1 ≤ i) (hi2 : i ≤ 10) (he1 : 1 ≤ e) (he2 : e ≤ 10) :
    ScoreTasks.compute_score (u : ℚ) (i : ℚ) (e : ℚ)
        = (u : ℚ) * 0.4 + (i : ℚ) * 0.4 - (e : ℚ) * 0.2 ∧
      -(6 / 5 : ℚ) ≤ ScoreTasks.compute_score (u : ℚ) (i : ℚ) (e : ℚ) ∧
      ScoreTasks.compute_score (u : ℚ) (i : ℚ) (e : ℚ) ≤ 39 / 5 := by
  have hcs := compute_score_int u i e
  refine ⟨?_, ?_, ?_⟩
  · rw [hcs]
    push_cast
    ring
  · rw [hcs, le_div_iff₀ (by norm_num : (0 : ℚ) < 5)]
    have : (-6 : ℤ) ≤ 2 * u + 2 * i - e := by omega
    calc -(6 / 5 : ℚ) * 5 = ((-6 : ℤ) : ℚ) := by norm_num
    _ ≤ ((2 * u + 2 * i - e : ℤ) : ℚ) := by exact_mod_cast this
  · rw [hcs, div_le_iff₀ (by norm_num : (0 : ℚ) < 5)]
    have : (2 * u + 2 * i - e : ℤ) ≤ 39 := by omega
    calc ((2 * u + 2 * i - e : ℤ) : ℚ) ≤ ((39 : ℤ) : ℚ) := by exact_mod_cast this
    _ = (39 / 5 : ℚ) * 5 := by norm_num

/-- Witness for C2 at the spec's Scenario C input `(8, 7, 3)`. -/
theorem compute_score_formula_and_range_witness :
    ScoreTasks.compute_score ((8 : ℤ) : ℚ) ((7 : ℤ) : ℚ) ((3 : ℤ) : ℚ)
        = ((8 : ℤ) : ℚ) * 0.4 + ((7 : ℤ) : ℚ) * 0.4 - ((3 : ℤ) : ℚ) * 0.2 ∧
      -(6 / 5 : ℚ) ≤ ScoreTasks.compute_score ((8 : ℤ) : ℚ) ((7 : ℤ) : ℚ) ((3 : ℤ) : ℚ) ∧
      ScoreTasks.compute_score ((8 : ℤ) : ℚ) ((7 : ℤ) : ℚ) ((3 : ℤ) : ℚ) ≤ 39 / 5 :=
  compute_score_formula_and_range 8 7 3 (by decide) (by decide) (by decide) (by decide)
    (by decide) (by decide)

end ScoreFormula

section UrgencyDeadline

/-- C4: on a record with stored urgency 5 and a string `due_date` parsing to
the current date, recomputed urgency is at least 9 (the +4 due-today boost is
applied on top of the preset baseline) and at most 10 (clamped). -/
theorem compute_urgency_due_today_boost (fm : FM) (body : Str) (today : PyDate) (s : Str)
    (hu : dictGet fm "urgency".data = some (.int 5))
    (hd : dictGet fm "due_date".data = some (.str s))
    (hp : strptimeYmd s = some today) :
    9 ≤ ScoreTasks.compute_urgency fm body today ∧
      ScoreTasks.compute_urgency fm body today ≤ 10 := by
  have hs1 : s ≠ [] := by
    intro h
    rw [h] at hp
    exact Option.noConfusion hp
  have hs2 : s ≠ "null".data := by
    intro h
    rw [h, (rfl : strptimeYmd "null".data = none)] at hp
    exact Option.noConfusion hp
  simp only [ScoreTasks.compute_urgency, hu, hd, hp]
  rw [if_pos (by norm_num : (0 : ℤ) < 5), if_pos ⟨hs1, hs2⟩]
  simp only [sub_self]
  norm_num

/-- Witness for C4 at a concrete record due on the current date. -/
theorem compute_urgency_due_today_boost_witness :
    9 ≤ ScoreTasks.compute_urgency
        [("urgency".data, .int 5), ("due_date".data, .str "2026-03-01".data)] []
        ⟨2026, 3, 1⟩ ∧
      ScoreTasks.compute_urgency
        [("urgency".data, .int 5), ("due_date".data, .str "2026-03-01".data)] []
        ⟨2026, 3, 1⟩ ≤ 10 :=
  compute_urgency_due_today_boost _ _ _ "2026-03-01".data (by decide) (by decide) (by decide)

end UrgencyDeadline

section ScenarioA

/-- C5 counterexample: on the raw text of Scenario A the parser returns the
title with the bold assignee marker still attached — the marker-stripping
pattern `\*\*@\w+\*\*\s*[—-]\s*` requires a dash right after the marker,
which this line does not have — so the title is not `"fix login bug"`. -/
theorem parse_action_item_keeps_assignee_marker :
    (ExtractTasks.parse_action_item "**@alice** fix login bug — due 2026-03-01".data
        "meeting-notes/2026-02-26-team-sync.md".data).title
      = "**@alice** fix login bug".data ∧
    "**@alice** fix login bug".data ≠ "fix login bug".data := by
  decide

/-- C5 (amended): the Scenario A line parses to assignee `@alice`, due date
`2026-03-01` and label set `{bug}` as claimed, but the title is
`"**@alice** fix login bug"`: the assignee marker is removed from the title
only when a dash separator follows it. -/
theorem parse_action_item_scenarioA :
    (ExtractTasks.parse_action_item "**@alice** fix login bug — due 2026-03-01".data
        "meeting-notes/2026-02-26-team-sync.md".data).assignee = "@alice".data ∧
    (ExtractTasks.parse_action_item "**@alice** fix login bug — due 2026-03-01".data
        "meeting-notes/2026-02-26-team-sync.md".data).due_date = some "2026-03-01".data ∧
    (ExtractTasks.parse_action_item "**@alice** fix login bug — due 2026-03-01".data
        "meeting-notes/2026-02-26-team-sync.md".data).labels = ["bug".data] ∧
    (ExtractTasks.parse_action_item "**@alice** fix login bug — due 2026-03-01".data
        "meeting-notes/2026-02-26-team-sync.md".data).title
      = "**@alice** fix login bug".data := by
  decide

end ScenarioA

section ConfidenceBounds

/-- C7: every candidate's confidence is in `[0,1]`, and when a bold assignee
was found, a due date was found, and the stripped title is longer than 10
characters, it is exactly 1.0. -/
theorem confidence_bounds_and_max (raw src : Str) :
    (0 ≤ (ExtractTasks.parse_action_item raw src).confidence ∧
      (ExtractTasks.parse_action_item raw src).confidence ≤ 1) ∧
    ((ExtractTasks.ownerSearch raw).isSome = true →
      (ExtractTasks.dueSearch raw).isSome = true →
      10 < (ExtractTasks.extractTitle raw).length →
      (ExtractTasks.parse_action_item raw src).confidence = 1) := by
  cases ho : (ExtractTasks.ownerSearch raw).isSome <;>
    cases hd : (ExtractTasks.dueSearch raw).isSome <;>
    by_cases ht : 10 < (ExtractTasks.extractTitle raw).length <;>
    (simp only [ExtractTasks.parse_action_item, ho, hd, ht, ite_true, ite_false,
      Bool.false_eq_true, IsEmpty.forall_iff, forall_true_left, and_true, true_and]
     with_unfolding_all decide)

/-- Witness for C7 on the Scenario A raw line (assignee, due date, long
title all present). -/
theorem confidence_bounds_and_max_witness :
    (0 ≤ (ExtractTasks.parse_action_item "**@alice** fix login bug — due 2026-03-01".data
        "n.md".data).confidence ∧
      (ExtractTasks.parse_action_item "**@alice** fix login bug — due 2026-03-01".data
        "n.md".data).confidence ≤ 1) ∧
    (ExtractTasks.parse_action_item "**@alice** fix login bug — due 2026-03-01".data
        "n.md".data).confidence = 1 :=
  ⟨(confidence_bounds_and_max "**@alice** fix login bug — due 2026-03-01".data "n.md".data).1,
    (confidence_bounds_and_max "**@alice** fix login bug — due 2026-03-01".data "n.md".data).2
      (by decide) (by decide) (by decide)⟩

end ConfidenceBounds

section UrgencyRange

theorem foldl_min10_bounds (l : List (Str × ℤ)) (lower : Str) (s : ℤ)
    (h5 : 5 ≤ s) (h10 : s ≤ 10) (hpos : ∀ kw ∈ l, 0 ≤ kw.2) :
    5 ≤ l.foldl (fun u kw => if hasSub kw.1 lower then min 10 (u + kw.2) else u) s ∧
      l.foldl (fun u kw => if hasSub kw.1 lower then min 10 (u + kw.2) else u) s ≤ 10 := by
  induction l generalizing s with
  | nil => exact ⟨h5, h10⟩
  | cons kw t ih =>
    have hb : 0 ≤ kw.2 := hpos kw (List.mem_cons_self kw t)
    have ht : ∀ k ∈ t, 0 ≤ k.2 := fun k hk => hpos k (List.mem_cons_of_mem kw hk)
    simp only [List.foldl_cons]
    by_cases hc : hasSub kw.1 lower = true
    · rw [if_pos hc]
      exact ih (min 10 (s + kw.2)) (le_min (by norm_num) (by omega)) (min_le_left _ _) ht
    · rw [if_neg hc]
      exact ih s h5 h10 ht

/-- C9: extraction-time urgency always lies in `[5,10]` (base 5, nonnegative
keyword boosts each clamped at 10), so the derived priority is always `high`
or `medium` — never `low` or `critical`. -/
theorem extraction_urgency_priority_range (raw src : Str) :
    5 ≤ (ExtractTasks.parse_action_item raw src).urgency ∧
      (ExtractTasks.parse_action_item raw src).urgency ≤ 10 ∧
      ((ExtractTasks.parse_action_item raw src).priority = "high".data ∨
        (ExtractTasks.parse_action_item raw src).priority = "medium".data) := by
  have hb := foldl_min10_bounds ExtractTasks.URGENCY_KEYWORDS (lowerS raw) 5
    (le_refl 5) (by norm_num) (by decide)
  simp only [ExtractTasks.parse_action_item]
  refine ⟨hb.1, hb.2, ?_⟩
  by_cases h8 : 8 ≤ ExtractTasks.URGENCY_KEYWORDS.foldl
      (fun u kw => if hasSub kw.1 (lowerS raw) then min 10 (u + kw.2) else u) 5
  · left
    rw [if_pos h8]
  · right
    rw [if_neg h8, if_pos hb.1]

end UrgencyRange

section Triage

theorem routeGo_live_ge (src : Str) (items : List ExtractTasks.RawItem)
    (c : ExtractTasks.Cand) :
    c ∈ (ExtractTasks.routeGo src items).1 →
      ¬(c.confidence < ExtractTasks.CONFIDENCE_THRESHOLD) := by
  induction items with
  | nil => simp [ExtractTasks.routeGo]
  | cons it rest ih =>
    rcases hrg : ExtractTasks.routeGo src rest with ⟨w, f⟩
    by_cases hc : (ExtractTasks.parse_action_item it.raw src).confidence
        < ExtractTasks.CONFIDENCE_THRESHOLD
    · simp only [ExtractTasks.routeGo, hrg, hc, ite_true]
      intro hm
      exact ih (by rw [hrg]; exact hm)
    · simp only [ExtractTasks.routeGo, hrg, hc, ite_false]
      intro hm
      rcases List.mem_cons.mp hm with h | h
      · rw [h]
        exact hc
      · exact ih (by rw [hrg]; exact h)

theorem routeGo_flagged_mem (src : Str) (items : List ExtractTasks.RawItem)
    (c : ExtractTasks.Cand)
    (hc : c.confidence < ExtractTasks.CONFIDENCE_THRESHOLD) :
    c ∈ items.map (fun it => ExtractTasks.parse_action_item it.raw src) →
      c ∈ (ExtractTasks.routeGo src items).2 := by
  induction items with
  | nil => simp
  | cons it rest ih =>
    rcases hrg : ExtractTasks.routeGo src rest with ⟨w, f⟩
    intro hm
    rcases List.mem_cons.mp hm with h | h
    · have hcf : (ExtractTasks.parse_action_item it.raw src).confidence
          < ExtractTasks.CONFIDENCE_THRESHOLD := by
        simp only at h
        rw [← h]
        exact hc
      simp only [ExtractTasks.routeGo, hrg, hcf, ite_true]
      exact List.mem_cons.mpr (Or.inl h)
    · have hmem := ih h
      by_cases hcf : (ExtractTasks.parse_action_item it.raw src).confidence
          < ExtractTasks.CONFIDENCE_THRESHOLD
      · simp only [ExtractTasks.routeGo, hrg, hcf, ite_true]
        refine List.mem_cons.mpr (Or.inr ?_)
        rw [hrg] at hmem
        exact hmem
      · simp only [ExtractTasks.routeGo, hrg, hcf, ite_false]
        rw [hrg] at hmem
        exact hmem

theorem importGo_live_ge (src : Str) (items : List ExtractTasks.RawItem)
    (c : ExtractTasks.Cand) :
    c ∈ (Importer.importGo src items).1 → ¬(c.confidence < (0.7 : ℚ)) := by
  induction items with
  | nil => simp [Importer.importGo]
  | cons it rest ih =>
    rcases hrg : Importer.importGo src rest with ⟨w, n⟩
    by_cases hc : (ExtractTasks.parse_action_item it.raw src).confidence < (0.7 : ℚ)
    · simp only [Importer.importGo, hrg, hc, ite_true]
      intro hm
      exact ih (by rw [hrg]; exact hm)
    · simp only [Importer.importGo, hrg, hc, ite_false]
      intro hm
      rcases List.mem_cons.mp hm with h | h
      · rw [h]
        exact hc
      · exact ih (by rw [hrg]; exact h)

/-- C6: a candidate with confidence below the fixed module constant
`CONFIDENCE_THRESHOLD = 0.7` is never put in the live list — neither by the
extraction script (which routes it to the flagged list instead) nor by the
backlog importer (which skips it for manual review); the threshold is a
module-level constant of the source, not a call parameter of either loop. -/
theorem low_confidence_never_live (text src : Str) (c : ExtractTasks.Cand) :
    (c ∈ (ExtractTasks.routeNote text src).1 →
      ¬(c.confidence < ExtractTasks.CONFIDENCE_THRESHOLD)) ∧
    (c.confidence < ExtractTasks.CONFIDENCE_THRESHOLD →
      (c ∈ (ExtractTasks.extract_action_items text).map
          (fun it => ExtractTasks.parse_action_item it.raw src) →
        c ∈ (ExtractTasks.routeNote text src).2) ∧
      c ∉ (ExtractTasks.routeNote text src).1 ∧
      c ∉ (Importer.importNote text src).1) := by
  refine ⟨routeGo_live_ge src _ c, fun hc => ⟨routeGo_flagged_mem src _ c hc, ?_, ?_⟩⟩
  · intro hm
    exact routeGo_live_ge src _ c hm hc
  · intro hm
    exact importGo_live_ge src _ c hm (by simpa [ExtractTasks.CONFIDENCE_THRESHOLD] using hc)

/-- Witness for C6: the item `- [ ] call` has confidence 0.5 < 0.7 and lands
only in the flagged list. -/
theorem low_confidence_never_live_witness :
    (ExtractTasks.parse_action_item "call".data "n.md".data
        ∈ (ExtractTasks.routeNote "## Action Items\n- [ ] call\n".data "n.md".data).2) ∧
    (ExtractTasks.parse_action_item "call".data "n.md".data
        ∉ (ExtractTasks.routeNote "## Action Items\n- [ ] call\n".data "n.md".data).1) ∧
    (ExtractTasks.parse_action_item "call".data "n.md".data
        ∉ (Importer.importNote "## Action Items\n- [ ] call\n".data "n.md".data).1) := by
  have h := (low_confidence_never_live "## Action Items\n- [ ] call\n".data "n.md".data
      (ExtractTasks.parse_action_item "call".data "n.md".data)).2
      (by with_unfolding_all decide)
  exact ⟨h.1 (by with_unfolding_all decide), h.2.1, h.2.2⟩

end Triage

section SplitlinesLemmas

theorem intercalate_cons_cons (s a b : Str) (t : List Str) :
    List.intercalate s (a :: b :: t) = a ++ s ++ List.intercalate s (b :: t) := by
  simp [List.intercalate, List.intersperse_cons_cons, List.append_assoc]

theorem splitlines_append_nl (l R : Str) (h : ('\n' : Char) ∉ l) :
    splitlines (l ++ '\n' :: R) = l :: splitlines R := by
  induction l with
  | nil => simp [splitlines]
  | cons c t ih =>
    have hc : c ≠ '\n' := fun hcc => h (hcc ▸ List.mem_cons_self c t)
    have ht : ('\n' : Char) ∉ t := fun htt => h (List.mem_cons_of_mem c htt)
    simp only [List.cons_append, splitlines, hc, ite_false, List.append_eq, ih ht]

theorem splitlines_single (l : Str) (h : ('\n' : Char) ∉ l) (hne : l ≠ []) :
    splitlines l = [l] := by
  induction l with
  | nil => exact absurd rfl hne
  | cons c t ih =>
    have hc : c ≠ '\n' := fun hcc => h (hcc ▸ List.mem_cons_self c t)
    have ht : ('\n' : Char) ∉ t := fun htt => h (List.mem_cons_of_mem c htt)
    rcases Decidable.em (t = []) with ht0 | ht0
    · subst ht0
      simp [splitlines, hc]
    · simp only [splitlines, hc, ite_false, ih ht ht0]

theorem splitlines_intercalate (lines : List Str)
    (hnl : ∀ l ∈ lines, ('\n' : Char) ∉ l)
    (hlast : lines.getLast? ≠ some []) :
    splitlines (List.intercalate ['\n'] lines) = lines := by
  induction lines with
  | nil => rfl
  | cons l rest ih =>
    rcases Decidable.em (rest = []) with hr | hr
    · subst hr
      simp only [List.intercalate, List.intersperse_singleton, List.flatten,
        List.append_nil]
      have hne : l ≠ [] := by
        intro hl
        exact hlast (by simp [hl, List.getLast?])
      exact splitlines_single l (hnl l (List.mem_cons_self _ _)) hne
    · rcases List.exists_cons_of_ne_nil hr with ⟨b, t, rfl⟩
      rw [intercalate_cons_cons]
      have h1 : ('\n' : Char) ∉ l := hnl l (List.mem_cons_self _ _)
      have h2 : ∀ x ∈ b :: t, ('\n' : Char) ∉ x := fun x hx =>
        hnl x (List.mem_cons_of_mem _ hx)
      have h3 : (b :: t).getLast? ≠ some [] := by
        intro hc
        apply hlast
        rw [List.getLast?_cons_cons]
        exact hc
      rw [List.append_assoc, List.singleton_append, splitlines_append_nl l _ h1, ih h2 h3]

end SplitlinesLemmas

section ExtractWindow

theorem extractGo_skips_nonentry (pre rest : List Str)
    (hpre : ∀ l ∈ pre, ExtractTasks.matchEntry l = false) :
    ExtractTasks.extractGo (pre ++ rest) false = ExtractTasks.extractGo rest false := by
  induction pre with
  | nil => rfl
  | cons l t ih =>
    have h1 : ExtractTasks.matchEntry l = false := hpre l (List.mem_cons_self _ _)
    have h2 : ∀ x ∈ t, ExtractTasks.matchEntry x = false := fun x hx =>
      hpre x (List.mem_cons_of_mem _ hx)
    simp only [List.cons_append, ExtractTasks.extractGo, h1, Bool.false_eq_true, ite_false,
      Bool.false_and, Bool.not_false, ite_true]
    exact ih h2

theorem extractGo_window (mid : List Str) (stop : Str) (post : List Str)
    (hstop : ExtractTasks.matchExit stop = true)
    (hstopNE : ExtractTasks.matchEntry stop = false)
    (hmid : ∀ l ∈ mid, ExtractTasks.matchEntry l = true ∨ ExtractTasks.matchExit l = false) :
    ExtractTasks.extractGo (mid ++ stop :: post) true
      = mid.filterMap (fun l =>
          if ExtractTasks.matchEntry l then none
          else (ExtractTasks.matchCheckbox l).map (fun g => ⟨pyStrip g, pyStrip l⟩)) := by
  induction mid with
  | nil =>
    simp only [List.nil_append, ExtractTasks.extractGo, hstopNE, Bool.false_eq_true, ite_false,
      hstop, Bool.and_self, ite_true, List.filterMap_nil]
  | cons l t ih =>
    have hl := hmid l (List.mem_cons_self _ _)
    have ht : ∀ x ∈ t, ExtractTasks.matchEntry x = true ∨ ExtractTasks.matchExit x = false :=
      fun x hx => hmid x (List.mem_cons_of_mem _ hx)
    rcases hl with hl | hl
    · simp only [List.cons_append, ExtractTasks.extractGo, hl, ite_true, List.filterMap_cons,
        List.append_eq, ih ht]
    · cases he : ExtractTasks.matchEntry l
      · simp only [List.cons_append, ExtractTasks.extractGo, he, Bool.false_eq_true, ite_false,
          hl, Bool.and_false, Bool.not_true, List.filterMap_cons]
        cases hcb : ExtractTasks.matchCheckbox l <;>
          simp [hcb, List.append_eq, ih ht]
      · simp only [List.cons_append, ExtractTasks.extractGo, he, ite_true, List.filterMap_cons,
          List.append_eq, ih ht]

theorem takeWhile_space_append (sp : Str) (c : Char) (t' : Str)
    (hspall : ∀ ch ∈ sp, isSpacePy ch = true) (hc : isSpacePy c = false) :
    (sp ++ c :: t').takeWhile isSpacePy = sp := by
  induction sp with
  | nil => simp [List.takeWhile_cons, hc]
  | cons x xs ih =>
    have hx : isSpacePy x = true := hspall x (List.mem_cons_self _ _)
    have hxs : ∀ ch ∈ xs, isSpacePy ch = true := fun ch hch =>
      hspall ch (List.mem_cons_of_mem _ hch)
    simp only [List.cons_append, List.takeWhile_cons, hx, ite_true, ih hxs]

/-- C10 counterexample: in a note whose first "Action Items" heading is
immediately followed by another level-2 heading that also begins with "Action
Items", scanning does not stop at that heading (the entry regex is checked
first), and the checkbox line after it is produced — contradicting "stops
permanently at the first level-2 heading that follows". -/
theorem second_action_items_heading_continues_section :
    ExtractTasks.matchExit "## Action Items 2".data = true ∧
      ExtractTasks.extract_action_items
          "## Action Items\n## Action Items 2\n- [ ] x".data
        = [⟨"x".data, "- [ ] x".data⟩] := by
  decide

/-- C10 (amended): scanning stops permanently at the first level-2 heading
that does not itself match the case-insensitive "Action Items" entry pattern;
within the window, checkbox lines of non-entry lines are produced in order and
nothing after the stopping heading is ever produced; and the entry trigger
accepts any level-2 heading whose text merely begins with "Action Items",
case-insensitively. -/
theorem extract_window_semantics (pre mid post : List Str) (hd stop : Str)
    (hnl : ∀ l ∈ pre ++ hd :: (mid ++ stop :: post), ('\n' : Char) ∉ l)
    (hlast : (pre ++ hd :: (mid ++ stop :: post)).getLast? ≠ some [])
    (hpre : ∀ l ∈ pre, ExtractTasks.matchEntry l = false)
    (hhd : ExtractTasks.matchEntry hd = true)
    (hstop : ExtractTasks.matchExit stop = true)
    (hstopNE : ExtractTasks.matchEntry stop = false)
    (hmid : ∀ l ∈ mid, ExtractTasks.matchEntry l = true ∨ ExtractTasks.matchExit l = false) :
    ExtractTasks.extract_action_items
        (List.intercalate ['\n'] (pre ++ hd :: (mid ++ stop :: post)))
      = mid.filterMap (fun l =>
          if ExtractTasks.matchEntry l then none
          else (ExtractTasks.matchCheckbox l).map (fun g => ⟨pyStrip g, pyStrip l⟩)) ∧
    (∀ sp t, sp ≠ [] → (∀ ch ∈ sp, isSpacePy ch = true) →
      hasInit "action items".data (lowerS t) = true →
      ExtractTasks.matchEntry ('#' :: '#' :: (sp ++ t)) = true) := by
  constructor
  · unfold ExtractTasks.extract_action_items
    rw [splitlines_intercalate _ hnl hlast, extractGo_skips_nonentry pre _ hpre]
    show ExtractTasks.extractGo (hd :: (mid ++ stop :: post)) false = _
    simp only [ExtractTasks.extractGo, hhd, ite_true]
    exact extractGo_window mid stop post hstop hstopNE hmid
  · intro sp t hsp hspall hai
    rcases t with _ | ⟨c, t'⟩
    · simp [lowerS, hasInit] at hai
    · have hca : Char.toLower c = 'a' := by
        simp only [lowerS, List.map_cons, hasInit, Bool.and_eq_true] at hai
        exact (of_decide_eq_true hai.1).symm
      have hcs : isSpacePy c = false := by
        cases hsc : isSpacePy c
        · rfl
        · exfalso
          have hd6 : c = ' ' ∨ c = '\t' ∨ c = '\n' ∨ c = '\r' ∨ c = '\x0b' ∨ c = '\x0c' := by
            simpa [isSpacePy, or_assoc] using hsc
          rcases hd6 with rfl | rfl | rfl | rfl | rfl | rfl <;> simp at hca
      have htw := takeWhile_space_append sp c t' hspall hcs
      simp only [ExtractTasks.matchEntry, htw]
      have hdr : (sp ++ c :: t').drop sp.length = c :: t' := List.drop_left sp (c :: t')
      rw [hdr, hai]
      simpa using hsp

end ExtractWindow

/-- Witness for C10 on a concrete note: items before the first non-entry
heading are produced (an interior "Action Items" heading yields nothing but
keeps the window open) and nothing after `## Done` is produced. -/
theorem extract_window_semantics_witness :
    ExtractTasks.extract_action_items
        (List.intercalate ['\n']
          ["# T".data, "## Action Items".data, "- [ ] a".data,
            "## ACTION ITEMS again".data, "- [ ] b".data, "## Done".data, "- [ ] c".data])
      = ["- [ ] a".data, "## ACTION ITEMS again".data, "- [ ] b".data].filterMap
          (fun l =>
            if ExtractTasks.matchEntry l then none
            else (ExtractTasks.matchCheckbox l).map (fun g => ⟨pyStrip g, pyStrip l⟩)) ∧
    (∀ sp t, sp ≠ [] → (∀ ch ∈ sp, isSpacePy ch = true) →
      hasInit "action items".data (lowerS t) = true →
      ExtractTasks.matchEntry ('#' :: '#' :: (sp ++ t)) = true) :=
  extract_window_semantics ["# T".data]
    ["- [ ] a".data, "## ACTION ITEMS again".data, "- [ ] b".data]
    ["- [ ] c".data] "## Action Items".data "## Done".data
    (by decide) (by decide) (by decide) (by decide) (by decide) (by decide) (by decide)

section PreserveImpactEffort

theorem resolve_both_present (fm : FM) (llm : Option (ℤ × ℤ)) (noLlm : Bool)
    (vi ve : FMValue)
    (hi : ScoreTasks.getOpt fm "impact".data = some vi)
    (he : ScoreTasks.getOpt fm "effort".data = some ve) :
    ScoreTasks.resolveImpactEffort fm llm noLlm = (some vi, some ve) := by
  simp [ScoreTasks.resolveImpactEffort, hi, he]

theorem resolve_fst_present_no_external (fm : FM) (llm : Option (ℤ × ℤ)) (noLlm : Bool)
    (vi : FMValue) (h : llm = none ∨ noLlm = true)
    (hi : ScoreTasks.getOpt fm "impact".data = some vi) :
    (ScoreTasks.resolveImpactEffort fm llm noLlm).1 = some vi := by
  rcases h with rfl | rfl
  · simp [ScoreTasks.resolveImpactEffort, hi, ite_self]
  · simp [ScoreTasks.resolveImpactEffort, hi]

theorem resolve_snd_present_no_external (fm : FM) (llm : Option (ℤ × ℤ)) (noLlm : Bool)
    (ve : FMValue) (h : llm = none ∨ noLlm = true)
    (he : ScoreTasks.getOpt fm "effort".data = some ve) :
    (ScoreTasks.resolveImpactEffort fm llm noLlm).2 = some ve := by
  rcases h with rfl | rfl
  · simp [ScoreTasks.resolveImpactEffort, he, ite_self]
  · simp [ScoreTasks.resolveImpactEffort, he]

theorem resolve_isSome (fm : FM) (llm : Option (ℤ × ℤ)) (noLlm : Bool) :
    (ScoreTasks.resolveImpactEffort fm llm noLlm).1.isSome = true ∧
      (ScoreTasks.resolveImpactEffort fm llm noLlm).2.isSome = true := by
  unfold ScoreTasks.resolveImpactEffort
  constructor <;>
    (cases hp : (if (ScoreTasks.getOpt fm "impact".data = none ∨
            ScoreTasks.getOpt fm "effort".data = none) ∧ noLlm = false then
          match llm with
          | some (li, le) => (some (FMValue.int li), some (FMValue.int le))
          | none => (ScoreTasks.getOpt fm "impact".data, ScoreTasks.getOpt fm "effort".data)
        else (ScoreTasks.getOpt fm "impact".data, ScoreTasks.getOpt fm "effort".data)) with
      | mk a b => cases a <;> cases b <;> simp [hp])

theorem score_task_file_lookups (fm : FM) (body : Str) (llm : Option (ℤ × ℤ))
    (noLlm : Bool) (today : PyDate) (iv ev : FMValue)
    (hre : ScoreTasks.resolveImpactEffort fm llm noLlm = (some iv, some ev)) :
    ∀ fm', ScoreTasks.score_task_file fm body llm noLlm today = some fm' →
      dictGet fm' "impact".data = some iv ∧ dictGet fm' "effort".data = some ev := by
  intro fm' hs
  unfold ScoreTasks.score_task_file at hs
  by_cases hfm : fm = []
  · rw [if_pos hfm] at hs
    exact Option.noConfusion hs
  rw [if_neg hfm, hre] at hs
  cases hti : ScoreTasks.toNum iv <;> cases hte : ScoreTasks.toNum ev <;>
    simp only [hti, hte] at hs
  any_goals exact Option.noConfusion hs
  have hfm' := (Option.some.injEq _ _).mp hs
  subst hfm'
  constructor
  · rw [dictGet_dictInsert_ne _ _ _ _ (by decide), dictGet_dictInsert_ne _ _ _ _ (by decide),
      dictGet_dictInsert_ne _ _ _ _ (by decide), dictGet_dictInsert_self]
  · rw [dictGet_dictInsert_ne _ _ _ _ (by decide), dictGet_dictInsert_ne _ _ _ _ (by decide),
      dictGet_dictInsert_self]

/-- C1 counterexample: a record with a pre-existing `impact: 7` and no effort
goes through the external-estimator tier (which returned `(3, 2)`), and the
written record has `impact: 3` — the present value was overwritten. -/
theorem llm_tier_overwrites_present_impact :
    ScoreTasks.getOpt [("title".data, FMValue.str "t".data), ("impact".data, FMValue.int 7)]
        "impact".data = some (FMValue.int 7) ∧
      (ScoreTasks.score_task_file
          [("title".data, FMValue.str "t".data), ("impact".data, FMValue.int 7)]
          [] (some (3, 2)) false ⟨2026, 3, 1⟩).map (fun f => dictGet f "impact".data)
        = some (some (FMValue.int 3)) := by
  with_unfolding_all decide

/-- C1 (amended): pre-existing impact/effort values survive scoring when both
are present (neither estimation tier runs), and when the external tier is off
or unavailable (`--no-llm`, or the estimator failed) the heuristic tier fills
only the absent field; but a successful external estimation with exactly one
field present overwrites the present one, as the counterexample shows. -/
theorem score_task_file_preserves_present_values (fm : FM) (body : Str)
    (llm : Option (ℤ × ℤ)) (noLlm : Bool) (today : PyDate) :
    (∀ vi ve : FMValue, ScoreTasks.getOpt fm "impact".data = some vi →
      ScoreTasks.getOpt fm "effort".data = some ve →
      ∀ fm', ScoreTasks.score_task_file fm body llm noLlm today = some fm' →
        dictGet fm' "impact".data = some vi ∧ dictGet fm' "effort".data = some ve) ∧
    ((llm = none ∨ noLlm = true) →
      ∀ vi : FMValue, ScoreTasks.getOpt fm "impact".data = some vi →
        ∀ fm', ScoreTasks.score_task_file fm body llm noLlm today = some fm' →
          dictGet fm' "impact".data = some vi) ∧
    ((llm = none ∨ noLlm = true) →
      ∀ ve : FMValue, ScoreTasks.getOpt fm "effort".data = some ve →
        ∀ fm', ScoreTasks.score_task_file fm body llm noLlm today = some fm' →
          dictGet fm' "effort".data = some ve) := by
  refine ⟨?_, ?_, ?_⟩
  · intro vi ve hi he fm' hs
    exact score_task_file_lookups fm body llm noLlm today vi ve
      (resolve_both_present fm llm noLlm vi ve hi he) fm' hs
  · intro h vi hi fm' hs
    have h1 := resolve_fst_present_no_external fm llm noLlm vi h hi
    have h2 := (resolve_isSome fm llm noLlm).2
    rcases ho : (ScoreTasks.resolveImpactEffort fm llm noLlm).2 with _ | ev
    · rw [ho] at h2
      exact absurd h2 (by decide)
    · have hre : ScoreTasks.resolveImpactEffort fm llm noLlm = (some vi, some ev) := by
        rcases hmk : ScoreTasks.resolveImpactEffort fm llm noLlm with ⟨a, b⟩
        rw [hmk] at h1 ho
        simp only at h1 ho
        rw [h1, ho]
      exact (score_task_file_lookups fm body llm noLlm today vi ev hre fm' hs).1
  · intro h ve he fm' hs
    have h1 := resolve_snd_present_no_external fm llm noLlm ve h he
    have h2 := (resolve_isSome fm llm noLlm).1
    rcases ho : (ScoreTasks.resolveImpactEffort fm llm noLlm).1 with _ | iv
    · rw [ho] at h2
      exact absurd h2 (by decide)
    · have hre : ScoreTasks.resolveImpactEffort fm llm noLlm = (some iv, some ve) := by
        rcases hmk : ScoreTasks.resolveImpactEffort fm llm noLlm with ⟨a, b⟩
        rw [hmk] at h1 ho
        simp only at h1 ho
        rw [h1, ho]
      exact (score_task_file_lookups fm body llm noLlm today iv ve hre fm' hs).2

/-- Witness for C1: a record carrying both `impact: 7` and `effort: 2` keeps
both values through scoring even though an external estimate `(3, 4)` was
available. -/
theorem score_task_file_preserves_present_values_witness :
    dictGet ((ScoreTasks.score_task_file
        [("title".data, FMValue.str "t".data), ("impact".data, FMValue.int 7),
          ("effort".data, FMValue.int 2)]
        [] (some (3, 4)) false ⟨2026, 3, 1⟩).getD []) "impact".data
      = some (FMValue.int 7) ∧
    dictGet ((ScoreTasks.score_task_file
        [("title".data, FMValue.str "t".data), ("impact".data, FMValue.int 7),
          ("effort".data, FMValue.int 2)]
        [] (some (3, 4)) false ⟨2026, 3, 1⟩).getD []) "effort".data
      = some (FMValue.int 2) := by
  cases ho : ScoreTasks.score_task_file
      [("title".data, FMValue.str "t".data), ("impact".data, FMValue.int 7),
        ("effort".data, FMValue.int 2)]
      [] (some (3, 4)) false ⟨2026, 3, 1⟩ with
  | none => exact absurd ho (by with_unfolding_all decide)
  | some fm' =>
    have h := (score_task_file_preserves_present_values
        [("title".data, FMValue.str "t".data), ("impact".data, FMValue.int 7),
          ("effort".data, FMValue.int 2)]
        [] (some (3, 4)) false ⟨2026, 3, 1⟩).1
      (FMValue.int 7) (FMValue.int 2) (by decide) (by decide) fm' ho
    simpa using h

end PreserveImpactEffort

section DateRoundTrip

theorem isDigitC_digitChar (k : ℕ) (h : k < 10) : isDigitC (digitChar k) = true := by
  interval_cases k <;> decide

theorem digitVal_digitChar (k : ℕ) (h : k < 10) : digitVal (digitChar k) = k := by
  interval_cases k <;> decide

theorem decToNat_pad4 (y : ℕ) (h : y ≤ 9999) : decToNat (pad4 y) = y := by
  have h1 : y / 1000 % 10 < 10 := Nat.mod_lt _ (by norm_num)
  have h2 : y / 100 % 10 < 10 := Nat.mod_lt _ (by norm_num)
  have h3 : y / 10 % 10 < 10 := Nat.mod_lt _ (by norm_num)
  have h4 : y % 10 < 10 := Nat.mod_lt _ (by norm_num)
  simp only [decToNat, pad4, List.foldl_cons, List.foldl_nil,
    digitVal_digitChar _ h1, digitVal_digitChar _ h2, digitVal_digitChar _ h3,
    digitVal_digitChar _ h4]
  omega

theorem monthTok_pad2 (m : ℕ) (h1 : 1 ≤ m) (h2 : m ≤ 12) (rest : Str) :
    monthTok (pad2 m ++ rest) = some (m, rest) := by
  interval_cases m <;> rfl

theorem dayTok_pad2 (d : ℕ) (h1 : 1 ≤ d) (h2 : d ≤ 31) :
    dayTok (pad2 d) = some (d, []) := by
  interval_cases d <;> rfl

theorem daysInMonth_le_31 (y m : ℕ) : daysInMonth y m ≤ 31 := by
  unfold daysInMonth
  split
  · split <;> norm_num
  · split <;> norm_num

theorem strptime_isoformat (d : PyDate) (h : d.valid = true) :
    strptimeYmd d.isoformat = some d := by
  obtain ⟨y, m, dy⟩ := d
  have hv := h
  simp only [PyDate.valid, Bool.and_eq_true, decide_eq_true_eq] at h
  obtain ⟨⟨⟨⟨⟨hy1, hy2⟩, hm1⟩, hm2⟩, hd1⟩, hd2⟩ := h
  have hd31 : dy ≤ 31 := le_trans hd2 (daysInMonth_le_31 y m)
  have h1 : y / 1000 % 10 < 10 := Nat.mod_lt _ (by norm_num)
  have h2 : y / 100 % 10 < 10 := Nat.mod_lt _ (by norm_num)
  have h3 : y / 10 % 10 < 10 := Nat.mod_lt _ (by norm_num)
  have h4 : y % 10 < 10 := Nat.mod_lt _ (by norm_num)
  show strptimeYmd (pad4 y ++ '-' :: pad2 m ++ '-' :: pad2 dy) = some ⟨y, m, dy⟩
  simp only [pad4, List.cons_append, List.nil_append, strptimeYmd,
    isDigitC_digitChar _ h1, isDigitC_digitChar _ h2, isDigitC_digitChar _ h3,
    isDigitC_digitChar _ h4, Bool.and_self, ite_true,
    monthTok_pad2 m hm1 hm2, dayTok_pad2 dy hd1 hd31]
  rw [show [digitChar (y / 1000 % 10), digitChar (y / 100 % 10), digitChar (y / 10 % 10),
      digitChar (y % 10)] = pad4 y from rfl, decToNat_pad4 y hy2]
  rw [if_pos hv]

end DateRoundTrip

section DoneInvariant

/-- C8 counterexample: `update_task` accepts `status: done` without setting
`completed_date`, so the sequence create → update{status: done} reaches a
record that is done with no completion date — the invariant is not preserved
by every writing operation. -/
theorem update_task_breaks_done_invariant :
    dictGet (McpServer.tool_update_task
        (McpServer.tool_create_task "TASK-001".data
          [("title".data, FMValue.str "demo".data)] ⟨2026, 3, 1⟩)
        [("id".data, FMValue.str "TASK-001".data), ("status".data, FMValue.str "done".data)]
        ⟨2026, 3, 2⟩) "status".data = some (FMValue.str "done".data) ∧
    dictGet (McpServer.tool_update_task
        (McpServer.tool_create_task "TASK-001".data
          [("title".data, FMValue.str "demo".data)] ⟨2026, 3, 1⟩)
        [("id".data, FMValue.str "TASK-001".data), ("status".data, FMValue.str "done".data)]
        ⟨2026, 3, 2⟩) "completed_date".data = none := by
  decide

/-- C8 (amended): `complete_task` does establish the invariant — it writes
`status: done` and `completed_date = today`, and whenever the record's
`created_date` parses to a date not after the (valid) current date, the
completion date is a parseable date on or after the creation date.
`update_task`, however, can produce `status: done` with no `completed_date`
(see the counterexample), so the invariant does not hold for every reachable
sequence of create/update/complete operations. -/
theorem complete_task_establishes_invariant (fm : FM) (today : PyDate) (c : Str)
    (dc : PyDate)
    (hc : dictGet fm "created_date".data = some (FMValue.str c))
    (hpc : strptimeYmd c = some dc)
    (hv : today.valid = true)
    (hle : dc.toOrd ≤ today.toOrd) :
    dictGet (McpServer.tool_complete_task fm today) "status".data
        = some (FMValue.str "done".data) ∧
    dictGet (McpServer.tool_complete_task fm today) "completed_date".data
        = some (FMValue.str today.isoformat) ∧
    dictGet (McpServer.tool_complete_task fm today) "created_date".data
        = some (FMValue.str c) ∧
    strptimeYmd today.isoformat = some today ∧
    strptimeYmd c = some dc ∧
    dc.toOrd ≤ today.toOrd := by
  unfold McpServer.tool_complete_task
  refine ⟨?_, ?_, ?_, strptime_isoformat today hv, hpc, hle⟩
  · rw [dictGet_dictInsert_ne _ _ _ _ (by decide), dictGet_dictInsert_ne _ _ _ _ (by decide),
      dictGet_dictInsert_self]
  · rw [dictGet_dictInsert_self]
  · rw [dictGet_dictInsert_ne _ _ _ _ (by decide), dictGet_dictInsert_ne _ _ _ _ (by decide),
      dictGet_dictInsert_ne _ _ _ _ (by decide)]
    exact hc

/-- Witness for C8 on a record created 2026-02-26 and completed 2026-03-01. -/
theorem complete_task_establishes_invariant_witness :
    dictGet (McpServer.tool_complete_task
        [("id".data, FMValue.str "TASK-001".data),
          ("created_date".data, FMValue.str "2026-02-26".data)] ⟨2026, 3, 1⟩)
        "status".data = some (FMValue.str "done".data) ∧
    dictGet (McpServer.tool_complete_task
        [("id".data, FMValue.str "TASK-001".data),
          ("created_date".data, FMValue.str "2026-02-26".data)] ⟨2026, 3, 1⟩)
        "completed_date".data = some (FMValue.str (PyDate.isoformat ⟨2026, 3, 1⟩)) ∧
    dictGet (McpServer.tool_complete_task
        [("id".data, FMValue.str "TASK-001".data),
          ("created_date".data, FMValue.str "2026-02-26".data)] ⟨2026, 3, 1⟩)
        "created_date".data = some (FMValue.str "2026-02-26".data) ∧
    strptimeYmd (PyDate.isoformat ⟨2026, 3, 1⟩) = some ⟨2026, 3, 1⟩ ∧
    strptimeYmd "2026-02-26".data = some ⟨2026, 2, 26⟩ ∧
    PyDate.toOrd ⟨2026, 2, 26⟩ ≤ PyDate.toOrd ⟨2026, 3, 1⟩ :=
  complete_task_establishes_invariant
    [("id".data, FMValue.str "TASK-001".data),
      ("created_date".data, FMValue.str "2026-02-26".data)]
    ⟨2026, 3, 1⟩ "2026-02-26".data ⟨2026, 2, 26⟩ (by decide) (by decide) (by decide) (by decide)

end DoneInvariant

section GenericStringLemmas

theorem takeWhile_append_stop (p : Char → Bool) (l : Str) (x : Char) (rest : Str)
    (hall : ∀ c ∈ l, p c = true) (hx : p x = false) :
    (l ++ x :: rest).takeWhile p = l := by
  induction l with
  | nil => simp [List.takeWhile_cons, hx]
  | cons a t ih =>
    have ha : p a = true := hall a (List.mem_cons_self _ _)
    have ht : ∀ c ∈ t, p c = true := fun c hc => hall c (List.mem_cons_of_mem _ hc)
    simp only [List.cons_append, List.takeWhile_cons, ha, ite_true, ih ht]

theorem dropWhile_cons_of_neg (p : Char → Bool) (c : Char) (t : Str) (h : p c = false) :
    (c :: t).dropWhile p = c :: t := by
  simp [List.dropWhile_cons, h]

theorem trimEndBy_of_last (p : Char → Bool) (s : Str) (c : Char) (t : Str)
    (hrev : s.reverse = c :: t) (hc : p c = false) :
    trimEndBy p s = s := by
  unfold trimEndBy
  rw [hrev, dropWhile_cons_of_neg p c t hc, ← hrev, List.reverse_reverse]

theorem pyStripBy_id (p : Char → Bool) (s : Str) (c d : Char) (t u : Str)
    (hs : s = c :: t) (hc : p c = false) (hrev : s.reverse = d :: u) (hd : p d = false) :
    pyStripBy p s = s := by
  unfold pyStripBy
  rw [hs, dropWhile_cons_of_neg p c t hc, ← hs, trimEndBy_of_last p s d u hrev hd]

theorem all_takeWhile_eq_self (p : Char → Bool) (l : Str) (hall : ∀ c ∈ l, p c = true) :
    l.takeWhile p = l := by
  induction l with
  | nil => rfl
  | cons a t ih =>
    have ha : p a = true := hall a (List.mem_cons_self _ _)
    simp only [List.takeWhile_cons, ha, ite_true,
      ih (fun c hc => hall c (List.mem_cons_of_mem _ hc))]

end GenericStringLemmas

section NumeralLemmas

theorem natToDecAux_digits (fuel n : ℕ) (h : n < fuel) :
    (∃ j, j < 10 ∧ ∃ t, natToDecAux fuel n = digitChar j :: t) ∧
      (∀ c ∈ natToDecAux fuel n, ∃ j, j < 10 ∧ c = digitChar j) := by
  induction fuel generalizing n with
  | zero => omega
  | succ fuel ih =>
    by_cases h10 : n < 10
    · refine ⟨⟨n, h10, [], by simp [natToDecAux, h10]⟩, ?_⟩
      intro c hc
      simp only [natToDecAux, h10, ite_true, List.mem_singleton] at hc
      exact ⟨n, h10, hc⟩
    · have hlt : n / 10 < fuel := by
        have := Nat.div_lt_self (by omega : 0 < n) (by norm_num : 1 < 10)
        omega
      have ihh := ih (n / 10) hlt
      obtain ⟨⟨j, hj, t, hshape⟩, hall⟩ := ihh
      constructor
      · refine ⟨j, hj, t ++ [digitChar (n % 10)], ?_⟩
        simp only [natToDecAux, h10, ite_false, hshape, List.cons_append]
      · intro c hc
        simp only [natToDecAux, h10, ite_false, List.mem_append, List.mem_singleton] at hc
        rcases hc with hc | hc
        · exact hall c hc
        · exact ⟨n % 10, Nat.mod_lt _ (by norm_num), hc⟩

theorem natToDec_digits (n : ℕ) :
    (∃ j, j < 10 ∧ ∃ t, natToDec n = digitChar j :: t) ∧
      (∀ c ∈ natToDec n, ∃ j, j < 10 ∧ c = digitChar j) :=
  natToDecAux_digits (n + 1) n (Nat.lt_succ_self n)

theorem decToNat_append_digit (s : Str) (c : Char) :
    decToNat (s ++ [c]) = decToNat s * 10 + digitVal c := by
  simp [decToNat, List.foldl_append]

theorem decToNat_natToDecAux (fuel n : ℕ) (h : n < fuel) :
    decToNat (natToDecAux fuel n) = n := by
  induction fuel generalizing n with
  | zero => omega
  | succ fuel ih =>
    by_cases h10 : n < 10
    · simp [natToDecAux, h10, decToNat, digitVal_digitChar _ h10]
    · have hlt : n / 10 < fuel := by
        have := Nat.div_lt_self (by omega : 0 < n) (by norm_num : 1 < 10)
        omega
      simp only [natToDecAux, h10, ite_false, decToNat_append_digit, ih (n / 10) hlt,
        digitVal_digitChar _ (Nat.mod_lt _ (by norm_num : (0:ℕ) < 10))]
      omega

theorem decToNat_natToDec (n : ℕ) : decToNat (natToDec n) = n :=
  decToNat_natToDecAux (n + 1) n (Nat.lt_succ_self n)

theorem digitChar_facts (j : ℕ) (h : j < 10) :
    isDigitC (digitChar j) = true ∧ isSpacePy (digitChar j) = false ∧
      digitChar j ≠ '-' ∧ digitChar j ≠ '[' ∧ digitChar j ≠ ']' ∧ digitChar j ≠ '"' ∧
      digitChar j ≠ '\'' ∧ digitChar j ≠ '\n' ∧ digitChar j ≠ '.' ∧
      Char.toLower (digitChar j) = digitChar j ∧ digitChar j ≠ 'n' ∧ digitChar j ≠ '~' := by
  interval_cases j <;> exact ⟨rfl, rfl, by decide, by decide, by decide, by decide, by decide,
    by decide, by decide, by decide, by decide, by decide⟩

end NumeralLemmas

section JsonRoundTrip

/-- Recursive view of the tail of `jsonDumpsList` (everything after `[`). -/
def encTail : List Str → Str
  | [] => [']']
  | [x] => '"' :: (x ++ '"' :: [']'])
  | x :: y :: t => '"' :: (x ++ '"' :: ',' :: ' ' :: encTail (y :: t))

theorem jsonDumpsList_eq_encTail (xs : List Str) : jsonDumpsList xs = '[' :: encTail xs := by
  induction xs with
  | nil => rfl
  | cons x t ih =>
    cases t with
    | nil =>
      unfold jsonDumpsList encTail
      simp [List.intercalate, List.intersperse]
    | cons y ts =>
      have ih3 : (List.intercalate ", ".data
            ((y :: ts).map (fun z => '"' :: (z ++ ['"'])))) ++ [']'] = encTail (y :: ts) := by
        unfold jsonDumpsList at ih
        injection ih
      show '[' :: (List.intercalate ", ".data
            ((x :: y :: ts).map (fun z => '"' :: (z ++ ['"'])))) ++ [']']
          = '[' :: encTail (x :: y :: ts)
      rw [List.map_cons] at ih3
      rw [List.map_cons, List.map_cons, intercalate_cons_cons]
      rw [show encTail (x :: y :: ts)
          = '"' :: (x ++ '"' :: ',' :: ' ' :: encTail (y :: ts)) from rfl]
      rw [← ih3]
      simp [List.append_assoc]

def isJsonPlain (c : Char) : Bool := !(c = '"' || c = '\\' || decide (c.toNat < 32))

theorem cleanElem_plain (x : Str) (h : x.all (fun c =>
      32 ≤ c.toNat && c.toNat ≤ 126 && c ≠ '"' && c ≠ '\\') = true) :
    ∀ c ∈ x, isJsonPlain c = true := by
  intro c hc
  have := (List.all_eq_true.mp h) c hc
  simp only [Bool.and_eq_true, decide_eq_true_eq] at this
  simp only [isJsonPlain, Bool.or_eq_true, Bool.not_eq_true', Bool.or_eq_false_iff,
    decide_eq_false_iff_not]
  refine ⟨⟨?_, ?_⟩, ?_⟩
  · simpa using this.1.2
  · simpa using this.2
  · omega

theorem jlString_enc (x : Str) (rest : Str) (hx : ∀ c ∈ x, isJsonPlain c = true) :
    jlString ('"' :: (x ++ '"' :: rest)) = some (x, rest) := by
  unfold jlString
  have htw : (x ++ '"' :: rest).takeWhile
      (fun c => !(c = '"' || c = '\\' || decide (c.toNat < 32))) = x :=
    takeWhile_append_stop _ x '"' rest (fun c hc => by simpa [isJsonPlain] using hx c hc)
      (by decide)
  simp only [htw]
  rw [List.drop_left x ('"' :: rest)]
  simp

theorem jlItems_cons_ws (f : ℕ) (c : Char) (s : Str) (hc : isJsonWs c = true) :
    jlItems (f + 1) (c :: s) = jlItems (f + 1) s := by
  unfold jlItems
  rw [List.dropWhile_cons_of_pos hc]

theorem jlItems_step_elem (f : ℕ) (x rest : Str) (hx : ∀ c ∈ x, isJsonPlain c = true) :
    jlItems (f + 1) ('"' :: (x ++ '"' :: rest)) =
      (match rest.dropWhile isJsonWs with
       | [] => none
       | c2 :: r2 =>
         if c2 = ',' then (jlItems f r2).map (x :: ·)
         else if c2 = ']' then (if (r2.dropWhile isJsonWs).isEmpty then some [x] else none)
         else none) := by
  conv_lhs => unfold jlItems
  rw [dropWhile_cons_of_neg isJsonWs '"' _ (by decide)]
  show (if '"' = ']' then _ else _) = _
  rw [if_neg (by decide : ¬('"' = ']')), jlString_enc x rest hx]

theorem jlItems_enc (fuel : ℕ) (xs : List Str)
    (hcl : ∀ x ∈ xs, ∀ c ∈ x, isJsonPlain c = true)
    (hf : xs.length < fuel) :
    jlItems fuel (encTail xs) = some xs := by
  induction xs generalizing fuel with
  | nil =>
    cases fuel with
    | zero => omega
    | succ f => rfl
  | cons x t ih =>
    cases fuel with
    | zero => omega
    | succ f =>
      cases t with
      | nil =>
        have hx := hcl x (List.mem_cons_self _ _)
        show jlItems (f + 1) ('"' :: (x ++ '"' :: [']'])) = some [x]
        rw [jlItems_step_elem f x [']'] hx]
        rfl
      | cons y ts =>
        have hx := hcl x (List.mem_cons_self _ _)
        have ht : ∀ z ∈ y :: ts, ∀ c ∈ z, isJsonPlain c = true := fun z hz =>
          hcl z (List.mem_cons_of_mem _ hz)
        have hfl : (y :: ts).length < f := by
          simp only [List.length_cons] at hf ⊢
          omega
        show jlItems (f + 1) ('"' :: (x ++ '"' :: (',' :: ' ' :: encTail (y :: ts))))
          = some (x :: y :: ts)
        rw [jlItems_step_elem f x (',' :: ' ' :: encTail (y :: ts)) hx]
        rw [dropWhile_cons_of_neg isJsonWs ',' _ (by decide)]
        show (jlItems f (' ' :: encTail (y :: ts))).map (x :: ·) = some (x :: y :: ts)
        cases f with
        | zero => omega
        | succ f2 =>
          rw [jlItems_cons_ws f2 ' ' _ (by decide), ih (f2 + 1) ht (by simpa using hfl)]
          rfl

theorem encTail_length_ge (xs : List Str) : xs.length < (encTail xs).length + 1 := by
  induction xs with
  | nil => simp [encTail]
  | cons x t ih =>
    cases t with
    | nil => simp [encTail]
    | cons y ts =>
      simp only [encTail, List.length_cons, List.length_append] at ih ⊢
      omega

theorem jsonLoadsList_dumps (xs : List Str)
    (hcl : ∀ x ∈ xs, ∀ c ∈ x, isJsonPlain c = true) :
    jsonLoadsList (jsonDumpsList xs) = some xs := by
  rw [jsonDumpsList_eq_encTail]
  unfold jsonLoadsList
  rw [dropWhile_cons_of_neg isJsonWs '[' _ (by decide)]
  show jlItems ((encTail xs).length + 1) (encTail xs) = some xs
  exact jlItems_enc ((encTail xs).length + 1) xs hcl (encTail_length_ge xs)

end JsonRoundTrip

section CleanPredicates

/-- Key shape accepted by the frontmatter line regex `^(\w[\w_-]*):`. -/
def cleanKey (k : Str) : Bool :=
  match k with
  | [] => false
  | c :: cs => isWordC c && cs.all isKeyC

/-- Values on which the pyyaml-free codec is an exact inverse pair: floats
with at most one decimal (`%.1f` is lossless), strings of printable ASCII
without quotes or backslashes whose strip does not trigger the JSON-array
guard (neither as valid JSON, which the guard re-types into a list, nor as a
representable string array), and lists of printable escape-free strings. -/
def cleanVal : FMValue → Bool
  | .null => true
  | .int _ => true
  | .float q => (q * 10).den == 1
  | .str s =>
    s.all (fun c => 32 ≤ c.toNat && c.toNat ≤ 126 && c ≠ '"' && c ≠ '\'' && c ≠ '\\')
      && !(hasInit ['['] (pyStrip s) && hasTail [']'] (pyStrip s)
            && (jsonDocValid (pyStrip s) || (jsonLoadsList (pyStrip s)).isSome))
  | .list xs => xs.all (fun x => x.all (fun c =>
      32 ≤ c.toNat && c.toNat ≤ 126 && c ≠ '"' && c ≠ '\\'))

end CleanPredicates

section ParseRenderValue

theorem natToDec_ne_nil (n : ℕ) : natToDec n ≠ [] := by
  obtain ⟨j, hj, t, hshape⟩ := (natToDec_digits n).1
  rw [hshape]
  exact List.cons_ne_nil _ _

theorem natToDec_all_digits (n : ℕ) : (natToDec n).all isDigitC = true := by
  rw [List.all_eq_true]
  intro c hc
  obtain ⟨j, hj, hcj⟩ := (natToDec_digits n).2 c hc
  rw [hcj]
  exact (digitChar_facts j hj).1

theorem isFloatCore_all_digits (t : Str) (h : t.all isDigitC = true) :
    isFloatCore t = false := by
  simp only [isFloatCore]
  rw [all_takeWhile_eq_self isDigitC t (fun c hc => (List.all_eq_true.mp h) c hc),
    List.drop_length]

theorem natToDec_last (m : ℕ) :
    ∃ jl, jl < 10 ∧ ∃ u, (natToDec m).reverse = digitChar jl :: u := by
  rcases hrev : (natToDec m).reverse with _ | ⟨c, u⟩
  · exact absurd (List.reverse_eq_nil_iff.mp hrev) (natToDec_ne_nil _)
  · have hc : c ∈ natToDec m := by
      rw [← List.mem_reverse, hrev]
      exact List.mem_cons_self _ _
    obtain ⟨jc, hjc, hcj⟩ := (natToDec_digits m).2 c hc
    subst hcj
    exact ⟨jc, hjc, u, rfl⟩

theorem isFloatTok_cons (c : Char) (t : Str) :
    isFloatTok (c :: t) = if c = '-' then isFloatCore t else isFloatCore (c :: t) := rfl

theorem isIntTok_cons (c : Char) (t : Str) :
    isIntTok (c :: t)
      = if c = '-' then !t.isEmpty && t.all isDigitC
        else !(c :: t).isEmpty && (c :: t).all isDigitC := rfl

theorem pyParseInt_cons (c : Char) (t : Str) :
    pyParseInt (c :: t)
      = if c = '-' then -(decToNat t : ℤ) else (decToNat (c :: t) : ℤ) := rfl

theorem pyParseFloat_cons (c : Char) (t : Str) :
    pyParseFloat (c :: t)
      = if c = '-' then -(pyParseFloatCore t) else pyParseFloatCore (c :: t) := rfl

theorem parseVal_intToDec (n : ℤ) :
    ScoreTasks.parseVal (intToDec n) = some (FMValue.int n) := by
  obtain ⟨j, hj, t, hshape⟩ := (natToDec_digits n.natAbs).1
  have hall := (natToDec_digits n.natAbs).2
  obtain ⟨hf1, hf2, hf3, hf4, hf5, hf6, hf7, hf8, hf9, hf10, hf11, hf12⟩ :=
    digitChar_facts j hj
  obtain ⟨jl, hjl, u, hrev⟩ := natToDec_last n.natAbs
  obtain ⟨hg1, hg2, hg3, hg4, hg5, hg6, hg7, hg8, hg9, hg10, hg11, hg12⟩ :=
    digitChar_facts jl hjl
  have hquotes : (['"', '\''] : List Char).contains (digitChar jl) = false := by
    simp [hg6, hg7]
  by_cases hneg : n < 0
  · have hid : intToDec n = '-' :: natToDec n.natAbs := by
      simp [intToDec, hneg]
    have hstrip : stripSet ['"', '\''] (intToDec n) = intToDec n := by
      refine pyStripBy_id _ _ '-' (digitChar jl) (natToDec n.natAbs) (u ++ ['-']) hid
        (by decide) ?_ hquotes
      rw [hid, List.reverse_cons, hrev]
      rfl
    have hbr : hasInit ['['] (intToDec n) = false := by
      rw [hid]
      simp [hasInit]
    have hlow : (decide (lowerS (intToDec n) = "null".data)
        || decide (lowerS (intToDec n) = "~".data)
        || decide (lowerS (intToDec n) = ([] : Str))) = false := by
      rw [hid]
      simp [lowerS]
    have hft : isFloatTok (intToDec n) = false := by
      rw [hid, isFloatTok_cons, if_pos rfl]
      exact isFloatCore_all_digits _ (natToDec_all_digits _)
    have hit : isIntTok (intToDec n) = true := by
      rw [hid, isIntTok_cons, if_pos rfl]
      simp [natToDec_ne_nil, natToDec_all_digits]
    have hpi : pyParseInt (intToDec n) = n := by
      rw [hid, pyParseInt_cons, if_pos rfl, decToNat_natToDec]
      omega
    simp only [ScoreTasks.parseVal, ScoreTasks.parseValPlain, hstrip, hbr, Bool.false_and, ite_false, hlow, hft, hit,
      Bool.false_eq_true, ite_true, hpi]
  · have hid : intToDec n = natToDec n.natAbs := by
      simp [intToDec, hneg]
    have hstrip : stripSet ['"', '\''] (intToDec n) = intToDec n := by
      refine pyStripBy_id _ _ (digitChar j) (digitChar jl) t u (by rw [hid, hshape])
        (by simp [hf6, hf7]) (by rw [hid, hrev]) hquotes
    have hbr : hasInit ['['] (intToDec n) = false := by
      rw [hid, hshape]
      have : ('[' : Char) ≠ digitChar j := fun hc => hf4 hc.symm
      simp [hasInit, this]
    have hlow : (decide (lowerS (intToDec n) = "null".data)
        || decide (lowerS (intToDec n) = "~".data)
        || decide (lowerS (intToDec n) = ([] : Str))) = false := by
      rw [hid, hshape]
      have hlow1 : lowerS (digitChar j :: t) = digitChar j :: lowerS t := by
        show Char.toLower (digitChar j) :: lowerS t = _
        rw [hf10]
      rw [hlow1]
      have h1 : digitChar j :: lowerS t ≠ "null".data := by
        intro hc
        injection hc with h1 _
        exact hf11 h1
      have h2 : digitChar j :: lowerS t ≠ "~".data := by
        intro hc
        injection hc with h1 _
        exact hf12 h1
      simp [h1, h2]
    have hft : isFloatTok (intToDec n) = false := by
      rw [hid, hshape, isFloatTok_cons, if_neg (fun hc => hf3 hc), ← hshape]
      exact isFloatCore_all_digits _ (natToDec_all_digits _)
    have hit : isIntTok (intToDec n) = true := by
      rw [hid, hshape, isIntTok_cons, if_neg (fun hc => hf3 hc), ← hshape]
      simp [natToDec_ne_nil, natToDec_all_digits]
    have hpi : pyParseInt (intToDec n) = n := by
      rw [hid, hshape, pyParseInt_cons, if_neg (fun hc => hf3 hc), ← hshape, decToNat_natToDec]
      omega
    simp only [ScoreTasks.parseVal, ScoreTasks.parseValPlain, hstrip, hbr, Bool.false_and, ite_false, hlow, hft, hit,
      Bool.false_eq_true, ite_true, hpi]

theorem decToNat_single (c : Char) : decToNat [c] = digitVal c := by
  simp [decToNat]

theorem parseVal_format1f (q : ℚ) (hden : (q * 10).den = 1) :
    ScoreTasks.parseVal (pyFormat1f q) = some (FMValue.float q) := by
  have hq10 : (((q * 10).num : ℤ) : ℚ) = q * 10 := by
    conv_rhs => rw [← Rat.num_div_den (q * 10)]
    rw [hden]
    simp
  have hm : roundHalfEven (q * 10) = (q * 10).num := by
    conv_lhs => rw [← hq10]
    exact roundHalfEven_intCast _
  have hfmt : pyFormat1f q
      = (if (q * 10).num < 0 then ['-'] else [])
        ++ (natToDec ((q * 10).num.natAbs / 10)
            ++ '.' :: [digitChar ((q * 10).num.natAbs % 10)]) := by
    simp only [pyFormat1f, hm, List.append_assoc]
  have hb10 : (q * 10).num.natAbs % 10 < 10 := Nat.mod_lt _ (by norm_num)
  obtain ⟨hb1, hb2, hb3, hb4, hb5, hb6, hb7, hb8, hb9, hb10l, hb11, hb12⟩ :=
    digitChar_facts _ hb10
  obtain ⟨j, hj, t, hshape⟩ := (natToDec_digits ((q * 10).num.natAbs / 10)).1
  obtain ⟨hf1, hf2, hf3, hf4, hf5, hf6, hf7, hf8, hf9, hf10, hf11, hf12⟩ :=
    digitChar_facts j hj
  have hDrev : (natToDec ((q * 10).num.natAbs / 10)
      ++ '.' :: [digitChar ((q * 10).num.natAbs % 10)]).reverse
      = digitChar ((q * 10).num.natAbs % 10) :: '.'
        :: (natToDec ((q * 10).num.natAbs / 10)).reverse := by
    simp
  have hDshape : natToDec ((q * 10).num.natAbs / 10)
      ++ '.' :: [digitChar ((q * 10).num.natAbs % 10)]
      = digitChar j :: (t ++ '.' :: [digitChar ((q * 10).num.natAbs % 10)]) := by
    rw [hshape]
    rfl
  have hcore : isFloatCore (natToDec ((q * 10).num.natAbs / 10)
      ++ '.' :: [digitChar ((q * 10).num.natAbs % 10)]) = true := by
    simp only [isFloatCore]
    rw [takeWhile_append_stop isDigitC _ '.' _
      (fun c hc => (List.all_eq_true.mp (natToDec_all_digits _)) c hc) (by decide)]
    rw [List.drop_left]
    simp [natToDec_ne_nil, hb1]
  have hcoreval : pyParseFloatCore (natToDec ((q * 10).num.natAbs / 10)
      ++ '.' :: [digitChar ((q * 10).num.natAbs % 10)])
      = ((q * 10).num.natAbs : ℚ) / 10 := by
    simp only [pyParseFloatCore]
    rw [takeWhile_append_stop isDigitC _ '.' _
      (fun c hc => (List.all_eq_true.mp (natToDec_all_digits _)) c hc) (by decide)]
    rw [List.drop_left]
    show (if ('.' : Char) = '.' then
        ((decToNat (natToDec ((q * 10).num.natAbs / 10)) : ℚ)
          + (decToNat [digitChar ((q * 10).num.natAbs % 10)] : ℚ)
            / (10 : ℚ) ^ ([digitChar ((q * 10).num.natAbs % 10)] : Str).length)
      else _) = _
    rw [if_pos rfl, decToNat_natToDec, decToNat_single, digitVal_digitChar _ hb10]
    rw [show ((10 : ℚ) ^ ([digitChar ((q * 10).num.natAbs % 10)] : Str).length) = 10 from by
      norm_num]
    have hdm : ((((q * 10).num.natAbs / 10 : ℕ)) : ℚ) * 10
        + (((q * 10).num.natAbs % 10 : ℕ) : ℚ) = (((q * 10).num.natAbs : ℕ) : ℚ) := by
      exact_mod_cast congrArg (fun n : ℕ => (n : ℚ))
        (by omega : ((q * 10).num.natAbs / 10) * 10 + (q * 10).num.natAbs % 10
          = (q * 10).num.natAbs)
    field_simp
    linarith
  have hqval : q = ((q * 10).num : ℚ) / 10 := by
    rw [hq10]
    ring
  by_cases hneg : (q * 10).num < 0
  · have hid : pyFormat1f q = '-' :: (natToDec ((q * 10).num.natAbs / 10)
        ++ '.' :: [digitChar ((q * 10).num.natAbs % 10)]) := by
      rw [hfmt, if_pos hneg]
      rfl
    have hstrip : stripSet ['"', '\''] (pyFormat1f q) = pyFormat1f q := by
      refine pyStripBy_id _ _ '-' (digitChar ((q * 10).num.natAbs % 10))
        (natToDec ((q * 10).num.natAbs / 10) ++ '.' :: [digitChar ((q * 10).num.natAbs % 10)])
        ('.' :: (natToDec ((q * 10).num.natAbs / 10)).reverse ++ ['-']) hid (by decide)
        ?_ (by simp [hb6, hb7])
      rw [hid, List.reverse_cons, hDrev]
      rfl
    have hbr : hasInit ['['] (pyFormat1f q) = false := by
      rw [hid]
      simp [hasInit]
    have hlow : (decide (lowerS (pyFormat1f q) = "null".data)
        || decide (lowerS (pyFormat1f q) = "~".data)
        || decide (lowerS (pyFormat1f q) = ([] : Str))) = false := by
      rw [hid]
      simp [lowerS]
    have hft : isFloatTok (pyFormat1f q) = true := by
      rw [hid, isFloatTok_cons, if_pos rfl]
      exact hcore
    have hpf : pyParseFloat (pyFormat1f q) = q := by
      rw [hid, pyParseFloat_cons, if_pos rfl, hcoreval, hqval]
      rw [show ((q * 10).num : ℚ) = -(((q * 10).num.natAbs : ℕ) : ℚ) from by
        have hnn : (((q * 10).num.natAbs : ℕ) : ℤ) = -(q * 10).num := by omega
        have h2 : (((q * 10).num.natAbs : ℕ) : ℚ) = -(((q * 10).num : ℤ) : ℚ) := by
          rw [← Int.cast_natCast, hnn, Int.cast_neg]
        linarith]
      simp
      rw [Int.abs_eq_natAbs, Int.natAbs_ofNat, neg_div]
    simp only [ScoreTasks.parseVal, ScoreTasks.parseValPlain, hstrip, hbr, Bool.false_and, ite_false, hlow, hft,
      Bool.false_eq_true, ite_true, hpf]
  · have hid : pyFormat1f q = natToDec ((q * 10).num.natAbs / 10)
        ++ '.' :: [digitChar ((q * 10).num.natAbs % 10)] := by
      rw [hfmt, if_neg hneg]
      rfl
    have hstrip : stripSet ['"', '\''] (pyFormat1f q) = pyFormat1f q := by
      refine pyStripBy_id _ _ (digitChar j) (digitChar ((q * 10).num.natAbs % 10))
        (t ++ '.' :: [digitChar ((q * 10).num.natAbs % 10)])
        ('.' :: (natToDec ((q * 10).num.natAbs / 10)).reverse)
        (by rw [hid, hDshape]) (by simp [hf6, hf7]) (by rw [hid, hDrev]) (by simp [hb6, hb7])
    have hbr : hasInit ['['] (pyFormat1f q) = false := by
      rw [hid, hDshape]
      have : ('[' : Char) ≠ digitChar j := fun hc => hf4 hc.symm
      simp [hasInit, this]
    have hlow : (decide (lowerS (pyFormat1f q) = "null".data)
        || decide (lowerS (pyFormat1f q) = "~".data)
        || decide (lowerS (pyFormat1f q) = ([] : Str))) = false := by
      rw [hid, hDshape]
      have hlow1 : lowerS (digitChar j :: (t ++ '.'
          :: [digitChar ((q * 10).num.natAbs % 10)]))
          = digitChar j :: lowerS (t ++ '.' :: [digitChar ((q * 10).num.natAbs % 10)]) := by
        show Char.toLower (digitChar j)
            :: lowerS (t ++ '.' :: [digitChar ((q * 10).num.natAbs % 10)]) = _
        rw [hf10]
      rw [hlow1]
      have h1 : ∀ u : Str, digitChar j :: u ≠ "null".data := by
        intro u hc
        injection hc with h1 _
        exact hf11 h1
      have h2 : ∀ u : Str, digitChar j :: u ≠ "~".data := by
        intro u hc
        injection hc with h1 _
        exact hf12 h1
      simp [h1, h2]
    have hft : isFloatTok (pyFormat1f q) = true := by
      rw [hid, hDshape, isFloatTok_cons, if_neg (fun hc => hf3 hc), ← hDshape]
      exact hcore
    have hpf : pyParseFloat (pyFormat1f q) = q := by
      rw [hid, hDshape, pyParseFloat_cons, if_neg (fun hc => hf3 hc), ← hDshape, hcoreval,
        hqval]
      rw [show ((q * 10).num : ℚ) = (((q * 10).num.natAbs : ℕ) : ℚ) from by
        have hnn : (((q * 10).num.natAbs : ℕ) : ℤ) = (q * 10).num := by omega
        rw [← Int.cast_natCast, hnn]]
      rw [div_mul_cancel₀ _ (by norm_num : (10:ℚ) ≠ 0), Rat.num_natCast, Int.natAbs_ofNat]
    simp only [ScoreTasks.parseVal, ScoreTasks.parseValPlain, hstrip, hbr, Bool.false_and, ite_false, hlow, hft,
      Bool.false_eq_true, ite_true, hpf]

theorem pyStripBy_wrap (p : Char → Bool) (q : Char) (s : Str) (hq : p q = true)
    (hs : ∀ c ∈ s, p c = false) :
    pyStripBy p (q :: (s ++ [q])) = s := by
  unfold pyStripBy
  rw [List.dropWhile_cons_of_pos hq]
  cases s with
  | nil =>
    simp [List.dropWhile_cons, hq, trimEndBy]
  | cons c t =>
    have hc : p c = false := hs c (List.mem_cons_self _ _)
    rw [List.cons_append, dropWhile_cons_of_neg p c _ hc]
    unfold trimEndBy
    rw [show (c :: (t ++ [q])).reverse = q :: (c :: t).reverse from by simp,
      List.dropWhile_cons_of_pos hq]
    rcases hrev : (c :: t).reverse with _ | ⟨d, u⟩
    · exact absurd hrev (by simp)
    · have hd : p d = false := hs d (by
        rw [← List.mem_reverse, hrev]
        exact List.mem_cons_self _ _)
      rw [dropWhile_cons_of_neg p d u hd, ← hrev, List.reverse_reverse]

theorem isFloatCore_head (c : Char) (t : Str) (h1 : isDigitC c = false) (h2 : c ≠ '.') :
    isFloatCore (c :: t) = false := by
  simp [isFloatCore, List.takeWhile_cons, h1, h2]

theorem isIntTok_head (c : Char) (t : Str) (h1 : c ≠ '-') (h2 : isDigitC c = false) :
    isIntTok (c :: t) = false := by
  rw [isIntTok_cons, if_neg h1]
  simp [h2]

theorem hasInit_single_shape (x : Char) (s : Str) (h : hasInit [x] s = true) :
    ∃ t, s = x :: t := by
  cases s with
  | nil => simp [hasInit] at h
  | cons c t =>
    simp only [hasInit, Bool.and_eq_true, decide_eq_true_eq] at h
    exact ⟨t, by rw [h.1]⟩

theorem hasTail_single_shape (x : Char) (s : Str) (h : hasTail [x] s = true) :
    ∃ u, s.reverse = x :: u := by
  unfold hasTail at h
  rw [show ([x] : Str).reverse = [x] from by simp] at h
  exact hasInit_single_shape x s.reverse h

theorem guard_or_split (A B C D : Bool) (h : (A && B && (C || D)) = false)
    (hab : (A && B) = true) : C = false ∧ D = false := by
  rw [hab, Bool.true_and] at h
  constructor
  · rcases Bool.eq_false_or_eq_true C with hc | hc
    · rw [hc] at h
      simp at h
    · exact hc
  · rcases Bool.eq_false_or_eq_true D with hd | hd
    · rw [hd] at h
      simp at h
    · exact hd

theorem stripGuard_transfer (s : Str)
    (hg : (hasInit ['['] (pyStrip s) && hasTail [']'] (pyStrip s)
            && (jsonDocValid (pyStrip s) || (jsonLoadsList (pyStrip s)).isSome)) = false) :
    (hasInit ['['] s && hasTail [']'] s
      && (jsonDocValid s || (jsonLoadsList s).isSome)) = false := by
  rcases Bool.eq_false_or_eq_true (hasInit ['['] s && hasTail [']'] s) with hb | hb
  case inr => simp [hb]
  · rw [Bool.and_eq_true] at hb
    have hA : hasInit ['['] s = true := hb.1
    have hB : hasTail [']'] s = true := hb.2
    obtain ⟨t, hst⟩ := hasInit_single_shape '[' s hA
    obtain ⟨u, hsu⟩ := hasTail_single_shape ']' s hB
    have hps : pyStrip s = s :=
      pyStripBy_id isSpacePy s '[' ']' t u hst (by decide) hsu (by decide)
    rw [hps] at hg
    exact hg

theorem renderVal_str_clean (s : Str)
    (hg : (hasInit ['['] (pyStrip s) && hasTail [']'] (pyStrip s)
            && (jsonDocValid (pyStrip s) || (jsonLoadsList (pyStrip s)).isSome)) = false) :
    ScoreTasks.renderVal (FMValue.str s) = some ('"' :: (s ++ ['"'])) := by
  simp only [ScoreTasks.renderVal]
  rcases Bool.eq_false_or_eq_true (hasInit ['['] (pyStrip s) && hasTail [']'] (pyStrip s))
    with hb | hb
  · obtain ⟨hvalid, hsome⟩ := guard_or_split _ _ _ _ hg hb
    have hnone : jsonLoadsList (pyStrip s) = none :=
      Option.not_isSome_iff_eq_none.mp (by simp [hsome])
    simp [hb, hnone, hvalid]
  · simp [hb]

theorem parseVal_quoted (s : Str)
    (hall : s.all (fun c =>
      32 ≤ c.toNat && c.toNat ≤ 126 && c ≠ '"' && c ≠ '\'' && c ≠ '\\') = true)
    (hg : (hasInit ['['] s && hasTail [']'] s
            && (jsonDocValid s || (jsonLoadsList s).isSome)) = false) :
    ScoreTasks.parseVal ('"' :: (s ++ ['"'])) = some (FMValue.str s) := by
  have hch : ∀ c ∈ s, c ≠ '"' ∧ c ≠ '\'' := by
    intro c hc
    have hx := List.all_eq_true.mp hall c hc
    simp only [Bool.and_eq_true, decide_eq_true_eq] at hx
    exact ⟨hx.1.1.2, hx.1.2⟩
  have hstrip : stripSet ['"', '\''] ('"' :: (s ++ ['"'])) = s := by
    refine pyStripBy_wrap _ '"' s (by decide) ?_
    intro c hc
    obtain ⟨h3, h4⟩ := hch c hc
    simp [h3, h4]
  have hlow : (decide (lowerS ('"' :: (s ++ ['"'])) = "null".data)
      || decide (lowerS ('"' :: (s ++ ['"'])) = "~".data)
      || decide (lowerS ('"' :: (s ++ ['"'])) = ([] : Str))) = false := by
    have hl1 : lowerS ('"' :: (s ++ ['"'])) = '"' :: lowerS (s ++ ['"']) := rfl
    rw [hl1]
    have h1 : ('"' :: lowerS (s ++ ['"'])) ≠ "null".data := by
      intro hc
      injection hc with hh _
      exact absurd hh (by decide)
    have h2 : ('"' :: lowerS (s ++ ['"'])) ≠ "~".data := by
      intro hc
      injection hc with hh _
      exact absurd hh (by decide)
    simp [h1, h2]
  have hft : isFloatTok ('"' :: (s ++ ['"'])) = false := by
    rw [isFloatTok_cons, if_neg (by decide : ¬('"' = '-'))]
    exact isFloatCore_head '"' _ (by decide) (by decide)
  have hit : isIntTok ('"' :: (s ++ ['"'])) = false :=
    isIntTok_head '"' _ (by decide) (by decide)
  have hplain : ScoreTasks.parseValPlain ('"' :: (s ++ ['"'])) = FMValue.str s := by
    simp only [ScoreTasks.parseValPlain, hlow, hft, hit, Bool.false_eq_true, ite_false,
      hstrip]
  simp only [ScoreTasks.parseVal, hstrip]
  rcases Bool.eq_false_or_eq_true (hasInit ['['] s && hasTail [']'] s) with hb | hb
  · obtain ⟨hvalid, hsome⟩ := guard_or_split _ _ _ _ hg hb
    have hnone : jsonLoadsList s = none :=
      Option.not_isSome_iff_eq_none.mp (by simp [hsome])
    simp [hb, hnone, hvalid, hplain]
  · simp [hb, hplain]

theorem parseVal_renderStr (s : Str) (hcl : cleanVal (FMValue.str s) = true) :
    ScoreTasks.renderVal (FMValue.str s) = some ('"' :: (s ++ ['"'])) ∧
    ScoreTasks.parseVal ('"' :: (s ++ ['"'])) = some (FMValue.str s) := by
  have hclb := hcl
  simp only [cleanVal, Bool.and_eq_true, Bool.not_eq_true'] at hclb
  obtain ⟨hall, hg⟩ := hclb
  exact ⟨renderVal_str_clean s hg, parseVal_quoted s hall (stripGuard_transfer s hg)⟩

theorem jsonDumpsList_shape (xs : List Str) :
    jsonDumpsList xs = '[' ::
      (List.intercalate ", ".data (xs.map (fun x => '"' :: (x ++ ['"']))) ++ [']']) := rfl

theorem jsonDumpsList_rev (xs : List Str) :
    (jsonDumpsList xs).reverse = ']' ::
      ((List.intercalate ", ".data (xs.map (fun x => '"' :: (x ++ ['"'])))).reverse
        ++ ['[']) := by
  simp [jsonDumpsList]

theorem parseVal_renderList (xs : List Str)
    (hcl : cleanVal (FMValue.list xs) = true) :
    ScoreTasks.parseVal (jsonDumpsList xs) = some (FMValue.list xs) := by
  have hcl' : xs.all (fun x => x.all (fun c =>
      32 ≤ c.toNat && c.toNat ≤ 126 && c ≠ '"' && c ≠ '\\')) = true := by
    simpa only [cleanVal] using hcl
  have hplain : ∀ x ∈ xs, ∀ c ∈ x, isJsonPlain c = true := fun x hx =>
    cleanElem_plain x (List.all_eq_true.mp hcl' x hx)
  have hstrip : stripSet ['"', '\''] (jsonDumpsList xs) = jsonDumpsList xs :=
    pyStripBy_id _ _ '[' ']' _ _ (jsonDumpsList_shape xs) (by decide)
      (jsonDumpsList_rev xs) (by decide)
  have hInit : hasInit ['['] (jsonDumpsList xs) = true := by
    rw [jsonDumpsList_shape]
    simp [hasInit]
  have hTail : hasTail [']'] (jsonDumpsList xs) = true := by
    unfold hasTail
    rw [show (([']'] : Str)).reverse = [']'] from by simp, jsonDumpsList_rev]
    simp [hasInit]
  have hloads : jsonLoadsList (jsonDumpsList xs) = some xs := jsonLoadsList_dumps xs hplain
  simp only [ScoreTasks.parseVal, hstrip, hInit, hTail, Bool.and_self, ite_true, hloads]

theorem parseVal_renderNull :
    ScoreTasks.parseVal ("null".data) = some FMValue.null := by
  decide

theorem parseVal_renderVal (v : FMValue) (hcl : cleanVal v = true) :
    ∃ r, ScoreTasks.renderVal v = some r ∧ ScoreTasks.parseVal r = some v := by
  cases v with
  | null => exact ⟨"null".data, rfl, parseVal_renderNull⟩
  | int n => exact ⟨intToDec n, rfl, parseVal_intToDec n⟩
  | float q =>
    have hden : (q * 10).den = 1 := by
      simpa only [cleanVal, beq_iff_eq] using hcl
    exact ⟨pyFormat1f q, rfl, parseVal_format1f q hden⟩
  | str s =>
    obtain ⟨h1, h2⟩ := parseVal_renderStr s hcl
    exact ⟨'"' :: (s ++ ['"']), h1, h2⟩
  | list xs => exact ⟨jsonDumpsList xs, rfl, parseVal_renderList xs hcl⟩

theorem isWordC_nonspace (c : Char) (h : isWordC c = true) : isSpacePy c = false := by
  cases hb : isSpacePy c with
  | false => rfl
  | true =>
    exfalso
    have hcs : c = ' ' ∨ c = '\t' ∨ c = '\n' ∨ c = '\r' ∨ c = '\x0b' ∨ c = '\x0c' := by
      simpa [isSpacePy, or_assoc] using hb
    rcases hcs with h1 | h1 | h1 | h1 | h1 | h1 <;> subst h1 <;> exact absurd h (by decide)

theorem isWordC_isKeyC (c : Char) (h : isWordC c = true) : isKeyC c = true := by
  simp [isKeyC, h]

theorem isKeyC_no_nl (c : Char) (h : isKeyC c = true) : c ≠ '\n' :=
  fun hc => absurd (hc ▸ h) (by decide)

theorem toNat_ge_32_no_nl (c : Char) (h : 32 ≤ c.toNat) : c ≠ '\n' :=
  fun hc => absurd (hc ▸ h) (by decide)

theorem encTail_chars (xs : List Str)
    (h : ∀ x ∈ xs, ∀ c ∈ x, 32 ≤ c.toNat) :
    ∀ c ∈ encTail xs, c ≠ '\n' := by
  induction xs with
  | nil =>
    intro c hc
    simp only [encTail, List.mem_singleton] at hc
    subst hc
    decide
  | cons x t ih =>
    cases t with
    | nil =>
      intro c hc
      simp only [encTail, List.mem_cons, List.mem_append, List.mem_singleton,
        List.not_mem_nil, or_false, or_assoc] at hc
      rcases hc with hc | hc | hc | hc
      · subst hc; decide
      · exact toNat_ge_32_no_nl c (h x (List.mem_cons_self _ _) c hc)
      · subst hc; decide
      · subst hc; decide
    | cons y ts =>
      intro c hc
      simp only [encTail, List.mem_cons, List.mem_append, List.not_mem_nil, or_false,
        or_assoc] at hc
      rcases hc with hc | hc | hc | hc | hc | hc
      · subst hc; decide
      · exact toNat_ge_32_no_nl c (h x (List.mem_cons_self _ _) c hc)
      · subst hc; decide
      · subst hc; decide
      · subst hc; decide
      · exact ih (fun z hz => h z (List.mem_cons_of_mem _ hz)) c hc

theorem natToDec_no_nl (n : ℕ) : ∀ c ∈ natToDec n, c ≠ '\n' := by
  intro c hc
  obtain ⟨j, hj, hcj⟩ := (natToDec_digits n).2 c hc
  subst hcj
  obtain ⟨_, _, _, _, _, _, _, h8, _, _, _, _⟩ := digitChar_facts j hj
  exact h8

theorem renderVal_no_nl (v : FMValue) (hcl : cleanVal v = true) (r : Str)
    (hr : ScoreTasks.renderVal v = some r) :
    ∀ c ∈ r, c ≠ '\n' := by
  cases v with
  | null =>
    obtain rfl : "null".data = r := Option.some.inj hr
    decide
  | int n =>
    obtain rfl : intToDec n = r := Option.some.inj hr
    intro c hc
    simp only [intToDec, List.mem_append, or_assoc] at hc
    rcases hc with hc | hc
    · by_cases hn : n < 0
      · simp only [hn, ite_true, List.mem_singleton] at hc
        subst hc
        decide
      · simp [hn] at hc
    · exact natToDec_no_nl _ c hc
  | float q =>
    obtain rfl : pyFormat1f q = r := Option.some.inj hr
    intro c hc
    simp only [pyFormat1f, List.mem_append, List.mem_cons,
      List.mem_singleton, List.not_mem_nil, or_false, or_assoc] at hc
    rcases hc with hc | hc | hc | hc
    · by_cases hn : roundHalfEven (q * 10) < 0
      · simp only [hn, ite_true, List.mem_singleton] at hc
        subst hc
        decide
      · simp only [hn, ite_false, List.not_mem_nil] at hc
    · exact natToDec_no_nl _ c hc
    · subst hc; decide
    · subst hc
      obtain ⟨_, _, _, _, _, _, _, h8, _, _, _, _⟩ :=
        digitChar_facts ((roundHalfEven (q * 10)).natAbs % 10)
          (Nat.mod_lt _ (by norm_num))
      exact h8
  | str s =>
    have hclb := hcl
    simp only [cleanVal, Bool.and_eq_true, Bool.not_eq_true'] at hclb
    obtain ⟨hall, hg⟩ := hclb
    rw [renderVal_str_clean s hg] at hr
    obtain rfl : '"' :: (s ++ ['"']) = r := Option.some.inj hr
    intro c hc
    simp only [List.mem_cons, List.mem_append, List.mem_singleton, List.not_mem_nil,
      or_false, or_assoc] at hc
    rcases hc with hc | hc | hc
    · subst hc; decide
    · have hx := List.all_eq_true.mp hall c hc
      simp only [Bool.and_eq_true, decide_eq_true_eq] at hx
      exact toNat_ge_32_no_nl c hx.1.1.1.1
    · subst hc; decide
  | list xs =>
    have hcl' : xs.all (fun x => x.all (fun c =>
        32 ≤ c.toNat && c.toNat ≤ 126 && c ≠ '"' && c ≠ '\\')) = true := by
      simpa only [cleanVal] using hcl
    have h32 : ∀ x ∈ xs, ∀ c ∈ x, 32 ≤ c.toNat := by
      intro x hx c hc
      have hy := List.all_eq_true.mp (List.all_eq_true.mp hcl' x hx) c hc
      simp only [Bool.and_eq_true, decide_eq_true_eq] at hy
      exact hy.1.1.1
    obtain rfl : jsonDumpsList xs = r := Option.some.inj hr
    rw [jsonDumpsList_eq_encTail]
    intro c hc
    rcases List.mem_cons.mp hc with hc | hc
    · subst hc; decide
    · exact encTail_chars xs h32 c hc

theorem renderVal_shape (v : FMValue) (hcl : cleanVal v = true) :
    ∃ r c t d u, ScoreTasks.renderVal v = some r ∧ r = c :: t ∧ isSpacePy c = false ∧
      r.reverse = d :: u ∧ isSpacePy d = false := by
  cases v with
  | null =>
    exact ⟨"null".data, 'n', ['u', 'l', 'l'], 'l', ['l', 'u', 'n'], rfl, by decide,
      by decide, by decide, by decide⟩
  | int n =>
    obtain ⟨j, hj, t, hshape⟩ := (natToDec_digits n.natAbs).1
    obtain ⟨jl, hjl, u, hrev⟩ := natToDec_last n.natAbs
    by_cases hn : n < 0
    · have hid : intToDec n = '-' :: natToDec n.natAbs := by
        simp [intToDec, hn]
      refine ⟨intToDec n, '-', natToDec n.natAbs, digitChar jl, u ++ ['-'], rfl, hid,
        by decide, ?_, (digitChar_facts jl hjl).2.1⟩
      rw [hid, List.reverse_cons, hrev]
      rfl
    · have hid : intToDec n = natToDec n.natAbs := by
        simp [intToDec, hn]
      exact ⟨intToDec n, digitChar j, t, digitChar jl, u, rfl, by rw [hid, hshape],
        (digitChar_facts j hj).2.1, by rw [hid, hrev], (digitChar_facts jl hjl).2.1⟩
  | float q =>
    obtain ⟨j, hj, t, hshape⟩ := (natToDec_digits ((roundHalfEven (q * 10)).natAbs / 10)).1
    have hb10 : (roundHalfEven (q * 10)).natAbs % 10 < 10 := Nat.mod_lt _ (by norm_num)
    by_cases hn : roundHalfEven (q * 10) < 0
    · have hid : pyFormat1f q
          = '-' :: (natToDec ((roundHalfEven (q * 10)).natAbs / 10)
            ++ '.' :: [digitChar ((roundHalfEven (q * 10)).natAbs % 10)]) := by
        simp [pyFormat1f, hn]
      refine ⟨pyFormat1f q, '-', _, digitChar ((roundHalfEven (q * 10)).natAbs % 10),
        '.' :: ((natToDec ((roundHalfEven (q * 10)).natAbs / 10)).reverse ++ ['-']),
        rfl, hid, by decide, ?_, (digitChar_facts _ hb10).2.1⟩
      rw [hid]
      simp
    · have hid : pyFormat1f q
          = natToDec ((roundHalfEven (q * 10)).natAbs / 10)
            ++ '.' :: [digitChar ((roundHalfEven (q * 10)).natAbs % 10)] := by
        simp [pyFormat1f, hn]
      refine ⟨pyFormat1f q, digitChar j,
        t ++ '.' :: [digitChar ((roundHalfEven (q * 10)).natAbs % 10)],
        digitChar ((roundHalfEven (q * 10)).natAbs % 10),
        '.' :: (natToDec ((roundHalfEven (q * 10)).natAbs / 10)).reverse,
        rfl, by rw [hid, hshape]; rfl, (digitChar_facts j hj).2.1, ?_,
        (digitChar_facts _ hb10).2.1⟩
      rw [hid]
      simp
  | str s =>
    have hclb := hcl
    simp only [cleanVal, Bool.and_eq_true, Bool.not_eq_true'] at hclb
    obtain ⟨hall, hg⟩ := hclb
    refine ⟨'"' :: (s ++ ['"']), '"', s ++ ['"'], '"', s.reverse ++ ['"'],
      renderVal_str_clean s hg, rfl, by decide, ?_, by decide⟩
    simp
  | list xs =>
    exact ⟨jsonDumpsList xs, '[', _, ']', _, rfl, jsonDumpsList_shape xs, by decide,
      jsonDumpsList_rev xs, by decide⟩

theorem pyStrip_space_cons (R : Str) (c : Char) (t : Str) (d : Char) (u : Str)
    (h1 : R = c :: t) (h2 : isSpacePy c = false) (h3 : R.reverse = d :: u)
    (h4 : isSpacePy d = false) :
    pyStrip (' ' :: R) = R := by
  unfold pyStrip pyStripBy
  rw [List.dropWhile_cons_of_pos (by decide : isSpacePy ' ' = true), h1,
    dropWhile_cons_of_neg _ _ _ h2, ← h1]
  exact trimEndBy_of_last _ R d u h3 h4

theorem parseLine_renderLine (k : Str) (v : FMValue) (r : Str) (hk : cleanKey k = true)
    (hv : cleanVal v = true) (hr : ScoreTasks.renderVal v = some r) :
    ScoreTasks.parseLine (ScoreTasks.renderLine k r) = some (k, some v) := by
  obtain ⟨k0, ks, rfl⟩ : ∃ k0 ks, k = k0 :: ks := by
    cases k with
    | nil => simp [cleanKey] at hk
    | cons a b => exact ⟨a, b, rfl⟩
  have hkb := hk
  simp only [cleanKey, Bool.and_eq_true] at hkb
  obtain ⟨hw, hks⟩ := hkb
  have hkeyall : ∀ c ∈ k0 :: ks, isKeyC c = true := by
    intro c hc
    rcases List.mem_cons.mp hc with hc | hc
    · subst hc
      exact isWordC_isKeyC _ hw
    · exact List.all_eq_true.mp hks c hc
  have hline : ScoreTasks.renderLine (k0 :: ks) r
      = (k0 :: ks) ++ ':' :: ' ' :: r := rfl
  have htw : (ScoreTasks.renderLine (k0 :: ks) r).takeWhile isKeyC = k0 :: ks := by
    rw [hline]
    exact takeWhile_append_stop isKeyC (k0 :: ks) ':' _ hkeyall (by decide)
  have hdrop : (ScoreTasks.renderLine (k0 :: ks) r).drop (k0 :: ks).length
      = ':' :: ' ' :: r := by
    rw [hline]
    exact List.drop_left _ _
  obtain ⟨r', c, t, d, u, hr', hc1, hc2, hd1, hd2⟩ := renderVal_shape v hv
  rw [hr] at hr'
  obtain rfl : r = r' := Option.some.inj hr'
  have hstr : pyStrip (' ' :: r) = r :=
    pyStrip_space_cons r c t d u hc1 hc2 hd1 hd2
  obtain ⟨r'', hr'', hpv⟩ := parseVal_renderVal v hv
  rw [hr] at hr''
  obtain rfl : r = r'' := Option.some.inj hr''
  simp only [ScoreTasks.parseLine, htw, hw, hdrop, ite_true, hstr, hpv]

theorem findFrom_cons_neg (n : Str) (c : Char) (t : Str) (h : hasInit n (c :: t) = false) :
    findFrom n (c :: t) = (findFrom n t).map (· + 1) := by
  show (if hasInit n (c :: t) = true then some 0 else (findFrom n t).map (· + 1)) = _
  rw [h]
  simp

theorem findFrom_hit (t : Str) :
    findFrom "\n---".data ('\n' :: '-' :: '-' :: '-' :: t) = some 0 := rfl

theorem findFrom_nl_skip (l : Str) (h : ∀ c ∈ l, c ≠ '\n') (u : Str) :
    findFrom "\n---".data (l ++ u) = (findFrom "\n---".data u).map (· + l.length) := by
  induction l with
  | nil =>
    rw [List.nil_append]
    cases hu : findFrom "\n---".data u <;> rfl
  | cons a l' ih =>
    have ha : ¬('\n' = a) := fun hh => (h a (List.mem_cons_self _ _)) hh.symm
    have hInit : hasInit "\n---".data (a :: (l' ++ u)) = false := by
      simp [hasInit, ha]
    rw [List.cons_append, findFrom_cons_neg _ _ _ hInit,
      ih (fun c hc => h c (List.mem_cons_of_mem _ hc))]
    cases hu : findFrom "\n---".data u <;> simp
    omega

theorem findFrom_fmclose (lines : List Str) (t : Str)
    (h1 : ∀ l ∈ lines, ∀ c ∈ l, c ≠ '\n')
    (h2 : ∀ l ∈ lines, ∃ c u, l = c :: u ∧ c ≠ '-') :
    findFrom "\n---".data
      ('\n' :: (List.intercalate ['\n'] lines ++ '\n' :: '-' :: '-' :: '-' :: t))
    = some ((List.intercalate ['\n'] lines).length + 1) := by
  induction lines with
  | nil =>
    rw [show List.intercalate ['\n'] ([] : List Str) = [] from rfl, List.nil_append]
    rw [findFrom_cons_neg _ _ _ (by simp [hasInit]), findFrom_hit]
    rfl
  | cons l rest ih =>
    obtain ⟨c0, u0, hl, hc0⟩ := h2 l (List.mem_cons_self _ _)
    have hc0' : ¬('-' = c0) := fun hh => hc0 hh.symm
    have hlnl : ∀ c ∈ l, c ≠ '\n' := h1 l (List.mem_cons_self _ _)
    cases rest with
    | nil =>
      rw [show List.intercalate ['\n'] [l] = l from by simp [List.intercalate]]
      have hInit : hasInit "\n---".data
          ('\n' :: (l ++ '\n' :: '-' :: '-' :: '-' :: t)) = false := by
        rw [hl, List.cons_append]
        simp [hasInit, hc0']
      rw [findFrom_cons_neg _ _ _ hInit, findFrom_nl_skip l hlnl _, findFrom_hit]
      simp
    | cons l2 rest2 =>
      rw [intercalate_cons_cons]
      have ih' := ih (fun x hx => h1 x (List.mem_cons_of_mem _ hx))
        (fun x hx => h2 x (List.mem_cons_of_mem _ hx))
      have hgroup : (l ++ ['\n'] ++ List.intercalate ['\n'] (l2 :: rest2))
            ++ '\n' :: '-' :: '-' :: '-' :: t
          = l ++ ('\n' :: (List.intercalate ['\n'] (l2 :: rest2)
            ++ '\n' :: '-' :: '-' :: '-' :: t)) := by
        simp [List.append_assoc]
      rw [hgroup]
      have hInit : hasInit "\n---".data
          ('\n' :: (l ++ ('\n' :: (List.intercalate ['\n'] (l2 :: rest2)
            ++ '\n' :: '-' :: '-' :: '-' :: t)))) = false := by
        rw [hl, List.cons_append]
        simp [hasInit, hc0']
      rw [findFrom_cons_neg _ _ _ hInit, findFrom_nl_skip l hlnl _, ih']
      simp [List.length_append]
      omega

theorem pyStrip_nl_cons (R : Str) (c : Char) (t : Str) (d : Char) (u : Str)
    (h1 : R = c :: t) (h2 : isSpacePy c = false) (h3 : R.reverse = d :: u)
    (h4 : isSpacePy d = false) :
    pyStrip ('\n' :: R) = R := by
  unfold pyStrip pyStripBy
  rw [List.dropWhile_cons_of_pos (by decide : isSpacePy '\n' = true), h1,
    dropWhile_cons_of_neg _ _ _ h2, ← h1]
  exact trimEndBy_of_last _ R d u h3 h4

theorem renderLine_shape (k : Str) (v : FMValue) (r : Str) (hk : cleanKey k = true)
    (hv : cleanVal v = true) (hr : ScoreTasks.renderVal v = some r) :
    (∃ c t, ScoreTasks.renderLine k r = c :: t ∧ isSpacePy c = false ∧ c ≠ '-') ∧
    (∃ d u, (ScoreTasks.renderLine k r).reverse = d :: u ∧ isSpacePy d = false) ∧
    (∀ c ∈ ScoreTasks.renderLine k r, c ≠ '\n') := by
  obtain ⟨k0, ks, rfl⟩ : ∃ k0 ks, k = k0 :: ks := by
    cases k with
    | nil => simp [cleanKey] at hk
    | cons a b => exact ⟨a, b, rfl⟩
  have hkb := hk
  simp only [cleanKey, Bool.and_eq_true] at hkb
  obtain ⟨hw, hks⟩ := hkb
  obtain ⟨r', c, t, d, u, hr', hc1, hc2, hd1, hd2⟩ := renderVal_shape v hv
  rw [hr] at hr'
  obtain rfl : r = r' := Option.some.inj hr'
  refine ⟨⟨k0, ks ++ ':' :: ' ' :: r, rfl, isWordC_nonspace k0 hw,
      fun hc => absurd (hc ▸ hw) (by decide)⟩,
    ⟨d, u ++ ' ' :: ':' :: (k0 :: ks).reverse, ?_, hd2⟩, ?_⟩
  · show ((k0 :: ks) ++ ':' :: ' ' :: r).reverse = _
    rw [List.reverse_append]
    simp [hd1]
  · intro c' hc'
    have hc'' : c' ∈ (k0 :: ks) ++ ':' :: ' ' :: r := hc'
    rcases List.mem_append.mp hc'' with hm | hm
    · rcases List.mem_cons.mp hm with hm | hm
      · subst hm
        exact fun hh => absurd (hh ▸ hw) (by decide)
      · exact isKeyC_no_nl c' (List.all_eq_true.mp hks c' hm)
    · rcases List.mem_cons.mp hm with hm | hm
      · subst hm
        decide
      · rcases List.mem_cons.mp hm with hm | hm
        · subst hm
          decide
        · exact renderVal_no_nl v hv r hr c' hm

theorem intercalate_head (lines : List Str)
    (h : ∀ l ∈ lines, ∃ c t, l = c :: t ∧ isSpacePy c = false) (l0 : Str) (rest : List Str)
    (hne : lines = l0 :: rest) :
    ∃ c t, List.intercalate ['\n'] lines = c :: t ∧ isSpacePy c = false := by
  subst hne
  obtain ⟨c, t, hl, hc⟩ := h l0 (List.mem_cons_self _ _)
  cases rest with
  | nil =>
    rw [show List.intercalate ['\n'] [l0] = l0 from by simp [List.intercalate]]
    exact ⟨c, t, hl, hc⟩
  | cons l2 r2 =>
    rw [intercalate_cons_cons, hl]
    exact ⟨c, t ++ ['\n'] ++ List.intercalate ['\n'] (l2 :: r2), by simp, hc⟩

theorem intercalate_rev (lines : List Str)
    (h : ∀ l ∈ lines, ∃ d u, l.reverse = d :: u ∧ isSpacePy d = false) (l0 : Str)
    (rest : List Str) (hne : lines = l0 :: rest) :
    ∃ d u, (List.intercalate ['\n'] lines).reverse = d :: u ∧ isSpacePy d = false := by
  induction lines generalizing l0 rest with
  | nil => exact absurd hne (by simp)
  | cons l r ih =>
    cases r with
    | nil =>
      rw [show List.intercalate ['\n'] [l] = l from by simp [List.intercalate]]
      exact h l (List.mem_cons_self _ _)
    | cons l2 r2 =>
      obtain ⟨d, u, hd, hds⟩ := ih (fun x hx => h x (List.mem_cons_of_mem _ hx)) l2 r2 rfl
      rw [intercalate_cons_cons]
      refine ⟨d, u ++ ('\n' :: l.reverse), ?_, hds⟩
      simp [hd]

theorem getLast?_ne_nil_of_all (lines : List Str) (h : ∀ l ∈ lines, l ≠ []) :
    lines.getLast? ≠ some [] := by
  induction lines with
  | nil => simp
  | cons l rest ih =>
    cases rest with
    | nil =>
      intro hc
      simp only [List.getLast?_singleton, Option.some.injEq] at hc
      exact h l (List.mem_cons_self _ _) hc
    | cons l2 r2 =>
      rw [List.getLast?_cons_cons]
      exact ih (fun x hx => h x (List.mem_cons_of_mem _ hx))

theorem dictInsert_append (m : FM) (k : Str) (v : FMValue) (h : ∀ q ∈ m, q.1 ≠ k) :
    dictInsert m k v = m ++ [(k, v)] := by
  induction m with
  | nil => rfl
  | cons p t ih =>
    show (if p.1 = k then (k, v) :: t else p :: dictInsert t k v) = _
    rw [if_neg (h p (List.mem_cons_self _ _)),
      ih (fun q hq => h q (List.mem_cons_of_mem _ hq))]
    rfl

theorem yaml_fold_append (fm : FM) (acc : FM) (lines : List Str)
    (hclean : ∀ p ∈ fm, cleanKey p.1 = true ∧ cleanVal p.2 = true)
    (hdisj : ∀ p ∈ fm, ∀ q ∈ acc, q.1 ≠ p.1)
    (hnod : (fm.map Prod.fst).Nodup)
    (hr : ScoreTasks.renderLines fm = some lines) :
    lines.foldl
      (fun a line =>
        a.bind (fun m =>
          match ScoreTasks.parseLine line with
          | some (k, some v) => some (dictInsert m k v)
          | some (_, none) => none
          | none => some m)) (some acc) = some (acc ++ fm) := by
  induction fm generalizing acc lines with
  | nil =>
    obtain rfl : ([] : List Str) = lines := Option.some.inj hr
    simp
  | cons p fm' ih =>
    obtain ⟨hk, hv⟩ := hclean p (List.mem_cons_self _ _)
    rcases hrv : ScoreTasks.renderVal p.2 with _ | r
    · exact absurd hr (by simp [ScoreTasks.renderLines, hrv])
    · rcases hls : ScoreTasks.renderLines fm' with _ | ls
      · exact absurd hr (by simp [ScoreTasks.renderLines, hrv, hls])
      · have hlines : ScoreTasks.renderLine p.1 r :: ls = lines := by
          simpa [ScoreTasks.renderLines, hrv, hls] using hr
        subst hlines
        rw [List.foldl_cons]
        have hstep : ((some acc : Option FM).bind (fun m =>
            match ScoreTasks.parseLine (ScoreTasks.renderLine p.1 r) with
            | some (k, some v) => some (dictInsert m k v)
            | some (_, none) => none
            | none => some m)) = some (acc ++ [(p.1, p.2)]) := by
          show (match ScoreTasks.parseLine (ScoreTasks.renderLine p.1 r) with
            | some (k, some v) => some (dictInsert acc k v)
            | some (_, none) => none
            | none => some acc) = some (acc ++ [(p.1, p.2)])
          rw [parseLine_renderLine p.1 p.2 r hk hv hrv]
          show some (dictInsert acc p.1 p.2) = some (acc ++ [(p.1, p.2)])
          rw [dictInsert_append acc p.1 p.2
            (fun q hq => hdisj p (List.mem_cons_self _ _) q hq)]
        rw [hstep]
        have hnod' : (fm'.map Prod.fst).Nodup := (List.nodup_cons.mp hnod).2
        have hnotmem : p.1 ∉ fm'.map Prod.fst := (List.nodup_cons.mp hnod).1
        rw [ih (acc ++ [(p.1, p.2)]) ls
          (fun q hq => hclean q (List.mem_cons_of_mem _ hq)) ?_ hnod' hls]
        · simp
        · intro w hw q hq
          rcases List.mem_append.mp hq with hq | hq
          · exact hdisj w (List.mem_cons_of_mem _ hw) q hq
          · rcases List.mem_singleton.mp hq with rfl
            intro hc
            exact hnotmem (hc ▸ List.mem_map_of_mem Prod.fst hw)

theorem renderLines_clean (fm : FM)
    (hclean : ∀ p ∈ fm, cleanKey p.1 = true ∧ cleanVal p.2 = true) :
    ∃ lines, ScoreTasks.renderLines fm = some lines := by
  induction fm with
  | nil => exact ⟨[], rfl⟩
  | cons p t ih =>
    obtain ⟨r, hr, _⟩ := parseVal_renderVal p.2 (hclean p (List.mem_cons_self _ _)).2
    obtain ⟨ls, hls⟩ := ih (fun q hq => hclean q (List.mem_cons_of_mem _ hq))
    exact ⟨ScoreTasks.renderLine p.1 r :: ls, by simp [ScoreTasks.renderLines, hr, hls]⟩

theorem renderLines_shapes (fm : FM) (lines : List Str)
    (hclean : ∀ p ∈ fm, cleanKey p.1 = true ∧ cleanVal p.2 = true)
    (hr : ScoreTasks.renderLines fm = some lines) :
    ∀ l ∈ lines,
      (∃ c t, l = c :: t ∧ isSpacePy c = false ∧ c ≠ '-') ∧
      (∃ d u, l.reverse = d :: u ∧ isSpacePy d = false) ∧
      (∀ c ∈ l, c ≠ '\n') := by
  induction fm generalizing lines with
  | nil =>
    obtain rfl : ([] : List Str) = lines := Option.some.inj hr
    intro l hl
    exact absurd hl (List.not_mem_nil l)
  | cons p fm' ih =>
    rcases hrv : ScoreTasks.renderVal p.2 with _ | r
    · exact absurd hr (by simp [ScoreTasks.renderLines, hrv])
    · rcases hls : ScoreTasks.renderLines fm' with _ | ls
      · exact absurd hr (by simp [ScoreTasks.renderLines, hrv, hls])
      · have hlines : ScoreTasks.renderLine p.1 r :: ls = lines := by
          simpa [ScoreTasks.renderLines, hrv, hls] using hr
        subst hlines
        intro l hl
        rcases List.mem_cons.mp hl with hl | hl
        · subst hl
          exact renderLine_shape p.1 p.2 r (hclean p (List.mem_cons_self _ _)).1
            (hclean p (List.mem_cons_self _ _)).2 hrv
        · exact ih ls (fun q hq => hclean q (List.mem_cons_of_mem _ hq)) hls l hl

theorem minimal_yaml_parse_render (fm : FM) (lines : List Str)
    (hclean : ∀ p ∈ fm, cleanKey p.1 = true ∧ cleanVal p.2 = true)
    (hnod : (fm.map Prod.fst).Nodup)
    (hr : ScoreTasks.renderLines fm = some lines) :
    ScoreTasks._minimal_yaml_parse (List.intercalate ['\n'] lines) = some fm := by
  have hsh := renderLines_shapes fm lines hclean hr
  have hnl : ∀ l ∈ lines, ('\n' : Char) ∉ l := by
    intro l hl hmem
    exact (hsh l hl).2.2 '\n' hmem rfl
  have hlast : lines.getLast? ≠ some [] := by
    refine getLast?_ne_nil_of_all _ ?_
    intro l hl
    obtain ⟨c, t, hct, _, _⟩ := (hsh l hl).1
    rw [hct]
    exact List.cons_ne_nil _ _
  unfold ScoreTasks._minimal_yaml_parse
  rw [splitlines_intercalate _ hnl hlast]
  have hfold := yaml_fold_append fm [] lines hclean (by simp) hnod hr
  rw [List.nil_append] at hfold
  exact hfold

theorem pyStrip_nl_render (lines : List Str)
    (hsh : ∀ l ∈ lines,
      (∃ c t, l = c :: t ∧ isSpacePy c = false ∧ c ≠ '-') ∧
      (∃ d u, l.reverse = d :: u ∧ isSpacePy d = false) ∧
      (∀ c ∈ l, c ≠ '\n')) :
    pyStrip ('\n' :: List.intercalate ['\n'] lines) = List.intercalate ['\n'] lines := by
  cases lines with
  | nil => decide
  | cons l0 rest =>
    have hhead : ∀ l ∈ (l0 :: rest), ∃ c t, l = c :: t ∧ isSpacePy c = false := by
      intro l hl
      obtain ⟨c, t, h1, h2, _⟩ := (hsh l hl).1
      exact ⟨c, t, h1, h2⟩
    have hrevs : ∀ l ∈ (l0 :: rest), ∃ d u, l.reverse = d :: u ∧ isSpacePy d = false :=
      fun l hl => (hsh l hl).2.1
    obtain ⟨c, t, hc1, hc2⟩ := intercalate_head _ hhead l0 rest rfl
    obtain ⟨d, u, hd1, hd2⟩ := intercalate_rev _ hrevs l0 rest rfl
    exact pyStrip_nl_cons _ c t d u hc1 hc2 hd1 hd2

/-- **C3** (counterexample to the spec's claim as stated): the codec is not an
inverse pair on every mapping it can render. A string value that is itself a
JSON array literal, here `labels: '["a"]'`, is re-rendered by
`render_frontmatter`'s corrupted-round-trip guard as a JSON list and then
re-typed by `_minimal_yaml_parse`'s `json.loads` branch as a list value, so
parsing the rendered text does not return the original mapping. -/
theorem render_parse_retypes_bracketed_string :
    (ScoreTasks.render_frontmatter [("labels".data, FMValue.str "[\"a\"]".data)]).bind
      (fun R => (ScoreTasks.parse_frontmatter
        ("---\n".data ++ R ++ "\n---\n\n".data ++ ([] : Str))).map Prod.fst)
      ≠ some [("labels".data, FMValue.str "[\"a\"]".data)] := by
  decide

/-- **C3** (amended): on the codec's clean domain — pairwise-distinct keys
matching `\w[\w_-]*`, and values that are null, integers, one-decimal floats,
printable quote- and backslash-free strings whose strip does not trigger the
JSON-array guard (it is not `json.loads`-valid JSON, which the guard re-types
into a list), or lists of printable escape-free strings — rendering succeeds
and parsing the rendered document returns exactly the original mapping, in
order: `parse_frontmatter("---\n" + render_frontmatter(fm) + "\n---\n\n" +
body)` yields `fm` for every body. -/
theorem parse_render_roundtrip (fm : FM) (body : Str)
    (hclean : ∀ p ∈ fm, cleanKey p.1 = true ∧ cleanVal p.2 = true)
    (hnod : (fm.map Prod.fst).Nodup) :
    ∃ R, ScoreTasks.render_frontmatter fm = some R ∧
      (ScoreTasks.parse_frontmatter
        ("---\n".data ++ R ++ "\n---\n\n".data ++ body)).map Prod.fst = some fm := by
  obtain ⟨lines, hr⟩ := renderLines_clean fm hclean
  have hsh := renderLines_shapes fm lines hclean hr
  refine ⟨List.intercalate ['\n'] lines, ?_, ?_⟩
  · show (ScoreTasks.renderLines fm).map (List.intercalate ['\n'])
        = some (List.intercalate ['\n'] lines)
    rw [hr]
    rfl
  · have hfind : findFrom "\n---".data
        ('\n' :: (List.intercalate ['\n'] lines ++ ("\n---\n\n".data ++ body)))
        = some ((List.intercalate ['\n'] lines).length + 1) := by
      show findFrom "\n---".data
          ('\n' :: (List.intercalate ['\n'] lines
            ++ '\n' :: '-' :: '-' :: '-' :: ('\n' :: ('\n' :: body))))
        = some ((List.intercalate ['\n'] lines).length + 1)
      refine findFrom_fmclose _ _ ?_ ?_
      · intro l hl
        exact (hsh l hl).2.2
      · intro l hl
        obtain ⟨c, t, h1, _, h3⟩ := (hsh l hl).1
        exact ⟨c, t, h1, h3⟩
    have hT : ("---\n".data ++ List.intercalate ['\n'] lines ++ "\n---\n\n".data ++ body)
        = "---\n".data ++ (List.intercalate ['\n'] lines ++ ("\n---\n\n".data ++ body)) := by
      simp [List.append_assoc]
    have hInit : hasInit "---".data
        ("---\n".data ++ (List.intercalate ['\n'] lines ++ ("\n---\n\n".data ++ body)))
        = true := rfl
    have hdrop3 : ("---\n".data
          ++ (List.intercalate ['\n'] lines ++ ("\n---\n\n".data ++ body))).drop 3
        = '\n' :: (List.intercalate ['\n'] lines ++ ("\n---\n\n".data ++ body)) := rfl
    have htake : ('\n' :: (List.intercalate ['\n'] lines
          ++ ("\n---\n\n".data ++ body))).take ((List.intercalate ['\n'] lines).length + 1)
        = '\n' :: List.intercalate ['\n'] lines := by
      rw [List.take_succ_cons, List.take_left]
    rw [hT]
    unfold ScoreTasks.parse_frontmatter
    rw [hInit, if_neg (by decide : ¬((!true) = true)), hdrop3, hfind]
    simp only [htake, pyStrip_nl_render lines hsh,
      minimal_yaml_parse_render fm lines hclean hnod hr, Option.map_some']

/-- Sample mapping exercising all five value kinds of the codec. -/
def c3SampleFM : FM :=
  [("title".data, FMValue.str "Fix login flow".data),
   ("urgency".data, FMValue.int 7),
   ("score".data, FMValue.float (29 / 5)),
   ("labels".data, FMValue.list ["bug".data, "auth".data]),
   ("completed_date".data, FMValue.null)]

/-- Closed witness for the amended C3 round trip at a concrete mapping with a
null, an integer, a float, a string and a list value. -/
theorem parse_render_roundtrip_witness :
    (∀ p ∈ c3SampleFM, cleanKey p.1 = true ∧ cleanVal p.2 = true) ∧
    ((c3SampleFM.map Prod.fst).Nodup) ∧
    (∃ R, ScoreTasks.render_frontmatter c3SampleFM = some R ∧
      (ScoreTasks.parse_frontmatter
        ("---\n".data ++ R ++ "\n---\n\n".data
          ++ "Notes from standup.".data)).map Prod.fst = some c3SampleFM) :=
  ⟨by with_unfolding_all decide, by decide,
    parse_render_roundtrip c3SampleFM "Notes from standup.".data
      (by with_unfolding_all decide) (by decide)⟩

end ParseRenderValue
